import Mathlib

/-!
# ImageSearch (util.cpp): options, template matching core, returned text

A shallow embedding of `ImageSearch` in `ImageSearchDLL/util.cpp` around the
calls into Windows: the asterisk-options of the image-file argument (with
`ATOI`, `StrChrAny`, `ColorNameToBGR` and the colour conversions), the
matching core that runs once both pixel buffers have been obtained from
`getbits` (the 16-bit normalisation, the clearing of the template's
high-order byte, and the two scan loops, exact match and
shades-of-variation), the text returned through the global `answer`, and
the in-place conversion of 8-bit images in `getbits`.

Conventions of the embedding.

* A `COLORREF`/`DWORD` is a `Nat`; `&=` is `Nat.land`.  Pixel buffers are
  `List Nat` and `p[i]` is `p.getD i 0`.
* `int`/`LONG` dimensions and loop counters are `Nat`: the buffers are
  allocated with `width * height` pixels, so none of the counters leaves
  the range of a 32-bit signed integer.
* A `for` loop with a counter running up to a fixed bound is a function
  that recurses on the number of iterations left.
* The outcome of the scan is `Option Nat`: `some i` is `found == true`
  with the outer loop counter stopped at `i`, `none` is `found == false`.
* A C string is the `List Char` of its characters before the terminator, and
  a pointer into it is a suffix.  The C runtime functions that the source
  calls (`atoi`, `strtol`, `toupper`, `_stricmp`, `_strnicmp`, `isxdigit`)
  follow their documentation, with a 32-bit `long`.
* The global `char answer[50]` is an explicit `Globals` value passed through
  the end of `ImageSearch`.
* The calls into Windows (`LoadPicture`, `getbits`, `BitBlt`, ...) are a
  parameter of the whole function: they deliver the buffers or fail.
* For `getbits` itself the answers of Windows and of `malloc` are the fields
  of `DIBitsAnswers`, and `captureWith` is the capture of `ImageSearch` made
  of its two calls of `getbits`; what is assumed of `GetDIBits` is a
  hypothesis of the theorem that needs it.
* For the 8-bit conversion the pixel buffer is a map from byte offsets to
  bytes, and a 32-bit slot is the four bytes at four times its index.
-/

namespace ImageSearch

/-! ## Constants and Windows colour accessors -/

/-- From `#define CLR_NONE 0xFFFFFFFF`. -/
def CLR_NONE : Nat := 0xFFFFFFFF

/-- Windows SDK accessor `GetRValue(rgb)`, that is `LOBYTE(rgb)`. -/
def GetRValue (rgb : Nat) : Nat := rgb % 256

/-- Windows SDK accessor `GetGValue(rgb)`, that is `LOBYTE(((WORD)(rgb)) >> 8)`. -/
def GetGValue (rgb : Nat) : Nat := ((rgb % 65536) >>> 8) % 256

/-- Windows SDK accessor `GetBValue(rgb)`, that is `LOBYTE((rgb) >> 16)`. -/
def GetBValue (rgb : Nat) : Nat := (rgb >>> 16) % 256

/-- The six `BYTE` bounds assigned by the `SET_COLOR_RANGE` block. -/
structure ColorRange where
  red_low : Nat
  green_low : Nat
  blue_low : Nat
  red_high : Nat
  green_high : Nat
  blue_high : Nat
  deriving DecidableEq, Repr

/-- The `SET_COLOR_RANGE` block; each result is stored in a `BYTE`, hence `% 256`. -/
def SET_COLOR_RANGE (aVariation search_red search_green search_blue : Nat) : ColorRange :=
  { red_low := (if aVariation > search_red then 0 else search_red - aVariation) % 256
    green_low := (if aVariation > search_green then 0 else search_green - aVariation) % 256
    blue_low := (if aVariation > search_blue then 0 else search_blue - aVariation) % 256
    red_high := (if aVariation > 0xFF - search_red then 0xFF else search_red + aVariation) % 256
    green_high :=
      (if aVariation > 0xFF - search_green then 0xFF else search_green + aVariation) % 256
    blue_high :=
      (if aVariation > 0xFF - search_blue then 0xFF else search_blue + aVariation) % 256 }

/-! ## Inputs of the matching core -/

/-- The values that are live in `ImageSearch` right after the second `getbits` call. -/
structure SearchInput where
  image_pixel : List Nat
  image_mask : Option (List Nat)
  image_width : Nat
  image_height : Nat
  image_is_16bit : Bool
  screen_pixel : List Nat
  screen_width : Nat
  screen_height : Nat
  screen_is_16bit : Bool
  trans_color : Nat
  aVariation : Nat
  deriving DecidableEq, Repr

/-- From `LONG image_pixel_count = image_width * image_height;`. -/
def image_pixel_count (inp : SearchInput) : Nat := inp.image_width * inp.image_height

/-- From `LONG screen_pixel_count = screen_width * screen_height;`. -/
def screen_pixel_count (inp : SearchInput) : Nat := inp.screen_width * inp.screen_height

/-! ## Normalisation -/

/-- The loop `for (i = 0; i < count; ++i) pixel[i] &= m;`. -/
def maskPixels (m : Nat) : Nat → List Nat → List Nat
  | 0, ps => ps
  | _ + 1, [] => []
  | n + 1, p :: ps => (p &&& m) :: maskPixels m n ps

/-- The test `image_is_16bit || screen_is_16bit`. -/
def either16 (inp : SearchInput) : Bool := inp.image_is_16bit || inp.screen_is_16bit

/-- Value of `trans_color` after the 16-bit block. -/
def normTransColor (inp : SearchInput) : Nat :=
  if either16 inp then
    (if inp.trans_color ≠ CLR_NONE then inp.trans_color &&& 0x00F8F8F8 else inp.trans_color)
  else inp.trans_color

/-- Contents of `screen_pixel` after the 16-bit block. -/
def screenAfter16 (inp : SearchInput) : List Nat :=
  if either16 inp then maskPixels 0x00F8F8F8 (screen_pixel_count inp) inp.screen_pixel
  else inp.screen_pixel

/-- Contents of `image_pixel` after the 16-bit block and the `&= 0x00FFFFFF` loop. -/
def normImage (inp : SearchInput) : List Nat :=
  maskPixels 0x00FFFFFF (image_pixel_count inp)
    (if either16 inp then maskPixels 0x00F8F8F8 (image_pixel_count inp) inp.image_pixel
     else inp.image_pixel)

/-- Contents of `screen_pixel` when the scan runs: the exact branch also clears the high byte. -/
def normScreen (inp : SearchInput) : List Nat :=
  if inp.aVariation < 1 then maskPixels 0x00FFFFFF (screen_pixel_count inp) (screenAfter16 inp)
  else screenAfter16 inp

/-! ## Per-pixel tests -/

/-- The test `image_mask && image_mask[j]`. -/
def maskSet (image_mask : Option (List Nat)) (j : Nat) : Bool :=
  match image_mask with
  | none => false
  | some m => m.getD j 0 != 0

/-- The exact-mode test
`screen_pixel[k] == image_pixel[j] || image_mask && image_mask[j] || image_pixel[j] == trans_color`. -/
def exactPixel (image_pixel screen_pixel : List Nat) (image_mask : Option (List Nat))
    (trans_color : Nat) (j k : Nat) : Bool :=
  screen_pixel.getD k 0 == image_pixel.getD j 0
    || maskSet image_mask j
    || image_pixel.getD j 0 == trans_color

/-- The variation-mode test: the three channels inside the range set by
`SET_COLOR_RANGE`, or the mask, or the transparent colour. -/
def variationPixel (image_pixel screen_pixel : List Nat) (image_mask : Option (List Nat))
    (trans_color aVariation : Nat) (j k : Nat) : Bool :=
  let search_red := GetBValue (image_pixel.getD j 0)
  let search_green := GetGValue (image_pixel.getD j 0)
  let search_blue := GetRValue (image_pixel.getD j 0)
  let rg := SET_COLOR_RANGE aVariation search_red search_green search_blue
  let red := GetBValue (screen_pixel.getD k 0)
  let green := GetGValue (screen_pixel.getD k 0)
  let blue := GetRValue (screen_pixel.getD k 0)
  (decide (red ≥ rg.red_low) && decide (red ≤ rg.red_high)
      && decide (green ≥ rg.green_low) && decide (green ≤ rg.green_high)
      && decide (blue ≥ rg.blue_low) && decide (blue ≤ rg.blue_high))
    || maskSet image_mask j
    || image_pixel.getD j 0 == trans_color

/-! ## The loops -/

/-- The inner loop
`for (found = true, x = 0, y = 0, j = 0, k = i; j < image_pixel_count; ++j)`,
shared by both branches up to the per-pixel test `pixelOk j k`.  The first
numeric argument is `image_pixel_count - j`; the result is `found`. -/
def matchLoop (pixelOk : Nat → Nat → Bool) (image_width screen_width i : Nat) :
    Nat → Nat → Nat → Nat → Nat → Bool
  | 0, _, _, _, _ => true
  | n + 1, x, y, j, k =>
    if pixelOk j k then
      if x + 1 < image_width then
        matchLoop pixelOk image_width screen_width i n (x + 1) y (j + 1) (k + 1)
      else
        matchLoop pixelOk image_width screen_width i n 0 (y + 1) (j + 1)
          (i + (y + 1) * screen_width)
    else false

/-- The outer loop `for (i = 0; i < screen_pixel_count; ++i)` that stops at
the first `i` whose guarded comparison leaves `found` true.  The first
argument is `screen_pixel_count - i`. -/
def scanLoop (candidate : Nat → Bool) : Nat → Nat → Option Nat
  | 0, _ => none
  | n + 1, i => if candidate i then some i else scanLoop candidate n (i + 1)

/-- The geometric part of both guards:
`image_height <= screen_height - i/screen_width && image_width <= screen_width - i%screen_width`. -/
def fitsAt (image_width image_height screen_width screen_height i : Nat) : Bool :=
  decide (image_height ≤ screen_height - i / screen_width)
    && decide (image_width ≤ screen_width - i % screen_width)

/-- Body of the exact-match outer loop at counter `i`: first-pixel test, fit
test, then the full comparison. -/
def exactCandidate (image_pixel screen_pixel : List Nat) (image_mask : Option (List Nat))
    (trans_color image_width image_height screen_width screen_height : Nat) (i : Nat) : Bool :=
  (exactPixel image_pixel screen_pixel image_mask trans_color 0 i
      && fitsAt image_width image_height screen_width screen_height i)
    && matchLoop (exactPixel image_pixel screen_pixel image_mask trans_color)
        image_width screen_width i (image_width * image_height) 0 0 0 i

/-- Body of the variation outer loop at counter `i`: fit test, then the full comparison. -/
def variationCandidate (image_pixel screen_pixel : List Nat) (image_mask : Option (List Nat))
    (trans_color aVariation image_width image_height screen_width screen_height : Nat)
    (i : Nat) : Bool :=
  fitsAt image_width image_height screen_width screen_height i
    && matchLoop (variationPixel image_pixel screen_pixel image_mask trans_color aVariation)
        image_width screen_width i (image_width * image_height) 0 0 0 i

/-- The exact-match scan (the `aVariation < 1` branch, after its masking loop). -/
def scanExact (image_pixel screen_pixel : List Nat) (image_mask : Option (List Nat))
    (trans_color image_width image_height screen_width screen_height : Nat) : Option Nat :=
  scanLoop
    (exactCandidate image_pixel screen_pixel image_mask trans_color
      image_width image_height screen_width screen_height)
    (screen_width * screen_height) 0

/-- The shades-of-variation scan (the `else` branch). -/
def scanVariation (image_pixel screen_pixel : List Nat) (image_mask : Option (List Nat))
    (trans_color aVariation image_width image_height screen_width screen_height : Nat) :
    Option Nat :=
  scanLoop
    (variationCandidate image_pixel screen_pixel image_mask trans_color aVariation
      image_width image_height screen_width screen_height)
    (screen_width * screen_height) 0

/-- The matching core of `ImageSearch`: normalisation, then the scan chosen by
`aVariation < 1`. -/
def search (inp : SearchInput) : Option Nat :=
  if inp.aVariation < 1 then
    scanExact (normImage inp) (normScreen inp) inp.image_mask (normTransColor inp)
      inp.image_width inp.image_height inp.screen_width inp.screen_height
  else
    scanVariation (normImage inp) (normScreen inp) inp.image_mask (normTransColor inp)
      inp.aVariation inp.image_width inp.image_height inp.screen_width inp.screen_height

/-- The guarded comparison that the dispatch on `aVariation < 1` runs at counter `i`. -/
def candidate (inp : SearchInput) (i : Nat) : Bool :=
  if inp.aVariation < 1 then
    exactCandidate (normImage inp) (normScreen inp) inp.image_mask (normTransColor inp)
      inp.image_width inp.image_height inp.screen_width inp.screen_height i
  else
    variationCandidate (normImage inp) (normScreen inp) inp.image_mask (normTransColor inp)
      inp.aVariation inp.image_width inp.image_height inp.screen_width inp.screen_height i

/-! ## The specification's vocabulary

These predicates follow the wording of the specification, not the code; the
theorems below relate them to the loops above. -/

/-- Specification, geometric fast-reject: enough rows and enough columns
remain at row-major index `i`. -/
def Fits (inp : SearchInput) (i : Nat) : Prop :=
  inp.image_height ≤ inp.screen_height - i / inp.screen_width ∧
    inp.image_width ≤ inp.screen_width - i % inp.screen_width

/-- Specification: template offset `j` is transparent, by its mask entry or by
being equal to the transparent colour. -/
def Transparent (inp : SearchInput) (j : Nat) : Prop :=
  maskSet inp.image_mask j = true ∨ (normImage inp).getD j 0 = normTransColor inp

/-- Specification: channel value `s` lies in the band
`[max(0, c - v), min(255, c + v)]` around the template channel `c`. -/
def InBand (v c s : Nat) : Prop :=
  max 0 ((c : Int) - (v : Int)) ≤ (s : Int) ∧ (s : Int) ≤ min 255 ((c : Int) + (v : Int))

/-- Specification: the colours at template offset `j` and surface offset `k`
agree: equal when the variation is 0, inside the band per channel otherwise. -/
def ColourMatches (inp : SearchInput) (j k : Nat) : Prop :=
  if inp.aVariation = 0 then (normScreen inp).getD k 0 = (normImage inp).getD j 0
  else
    InBand inp.aVariation (GetRValue ((normImage inp).getD j 0))
        (GetRValue ((normScreen inp).getD k 0)) ∧
      InBand inp.aVariation (GetGValue ((normImage inp).getD j 0))
        (GetGValue ((normScreen inp).getD k 0)) ∧
      InBand inp.aVariation (GetBValue ((normImage inp).getD j 0))
        (GetBValue ((normScreen inp).getD k 0))

/-- Specification: the pair of offsets `(j, k)` matches. -/
def PixelMatches (inp : SearchInput) (j k : Nat) : Prop :=
  Transparent inp j ∨ ColourMatches inp j k

/-- Specification: the full comparison succeeds at candidate index `i`; template pixel
`(r, c)` is compared with the surface pixel `r` rows below and `c` columns right of `i`. -/
def MatchesAt (inp : SearchInput) (i : Nat) : Prop :=
  ∀ r, r < inp.image_height → ∀ c, c < inp.image_width →
    PixelMatches inp (r * inp.image_width + c) (i + r * inp.screen_width + c)

instance (inp : SearchInput) (i : Nat) : Decidable (Fits inp i) := by
  unfold Fits; infer_instance

instance (inp : SearchInput) (j : Nat) : Decidable (Transparent inp j) := by
  unfold Transparent; infer_instance

instance (v c s : Nat) : Decidable (InBand v c s) := by
  unfold InBand; infer_instance

instance (inp : SearchInput) (j k : Nat) : Decidable (ColourMatches inp j k) := by
  unfold ColourMatches; infer_instance

instance (inp : SearchInput) (j k : Nat) : Decidable (PixelMatches inp j k) := by
  unfold PixelMatches; infer_instance

instance (inp : SearchInput) (i : Nat) : Decidable (MatchesAt inp i) := by
  unfold MatchesAt; infer_instance

/-! ## Sample inputs -/

/-- A 2x2 template of four distinct colours and a 4x4 surface that holds it
only at row 1, column 2. -/
def sampleInput : SearchInput :=
  { image_pixel := [0x010203, 0x040506, 0x070809, 0x0A0B0C]
    image_mask := none
    image_width := 2
    image_height := 2
    image_is_16bit := false
    screen_pixel :=
      [0, 0, 0, 0,
       0, 0, 0x010203, 0x040506,
       0, 0, 0x070809, 0x0A0B0C,
       0, 0, 0, 0]
    screen_width := 4
    screen_height := 4
    screen_is_16bit := false
    trans_color := CLR_NONE
    aVariation := 0 }

/-- The template of `sampleInput` with its first colour changed, so that it
occurs nowhere in the surface. -/
def sampleMiss : SearchInput :=
  { sampleInput with image_pixel := [0x0F0F0F, 0x040506, 0x070809, 0x0A0B0C] }

/-- A 2x2 template searched in a surface that is a copy of it. -/
def sampleCopy : SearchInput :=
  { sampleInput with
    screen_pixel := [0x010203, 0x040506, 0x070809, 0x0A0B0C]
    screen_width := 2
    screen_height := 2 }

/-- A 3x1 template searched in a 2x2 surface: it is wider than the surface. -/
def sampleTooWide : SearchInput :=
  { sampleInput with
    image_pixel := [0, 0, 0]
    image_width := 3
    image_height := 1
    screen_pixel := [0, 0, 0, 0]
    screen_width := 2
    screen_height := 2 }

/-! ## The walk of the inner loop -/

/-- The variables `x`, `y`, `k` of the inner loop. -/
structure WalkState where
  x : Nat
  y : Nat
  k : Nat
  deriving DecidableEq, Repr

/-- The end of one iteration of the inner loop:
`if (++x < image_width) ++k; else { x = 0; ++y; k = i + y*screen_width; }`. -/
def walkStep (image_width screen_width i : Nat) (s : WalkState) : WalkState :=
  if s.x + 1 < image_width then { x := s.x + 1, y := s.y, k := s.k + 1 }
  else { x := 0, y := s.y + 1, k := i + (s.y + 1) * screen_width }

/-- The values of `x`, `y`, `k` when the iteration for template offset `j`
begins, from the initialisation `x = 0, y = 0, k = i`; `k` is the surface
index read in that iteration. -/
def walkAt (image_width screen_width i : Nat) : Nat → WalkState
  | 0 => { x := 0, y := 0, k := i }
  | j + 1 => walkStep image_width screen_width i (walkAt image_width screen_width i j)

/-! ## The exact scan without its first-pixel test

The specification's reference for the first-pixel optimisation: the same
scan with the fit check alone guarding the full comparison. -/

/-- Specification: body of the exact-match outer loop with the first-pixel
test removed. -/
def exactCandidateNoFirstPixel (image_pixel screen_pixel : List Nat)
    (image_mask : Option (List Nat))
    (trans_color image_width image_height screen_width screen_height : Nat) (i : Nat) : Bool :=
  fitsAt image_width image_height screen_width screen_height i
    && matchLoop (exactPixel image_pixel screen_pixel image_mask trans_color)
        image_width screen_width i (image_width * image_height) 0 0 0 i

/-- Specification: the exact-match scan with the first-pixel test removed. -/
def scanExactNoFirstPixel (image_pixel screen_pixel : List Nat) (image_mask : Option (List Nat))
    (trans_color image_width image_height screen_width screen_height : Nat) : Option Nat :=
  scanLoop
    (exactCandidateNoFirstPixel image_pixel screen_pixel image_mask trans_color
      image_width image_height screen_width screen_height)
    (screen_width * screen_height) 0

/-- Specification: channel `s` differs from channel `c` by exactly `v`. -/
def DiffersBy (v c s : Nat) : Prop := s = c + v ∨ c = s + v

instance (v c s : Nat) : Decidable (DiffersBy v c s) := by
  unfold DiffersBy; infer_instance

/-- A 2x2 template and a 4x4 surface whose block at row 1, column 2 is the
template with every channel raised by 2; the other surface pixels are 0. -/
def sampleShifted : SearchInput :=
  { image_pixel := [0x102030, 0x405060, 0x708090, 0xA0B0C0]
    image_mask := none
    image_width := 2
    image_height := 2
    image_is_16bit := false
    screen_pixel :=
      [0, 0, 0, 0,
       0, 0, 0x122232, 0x425262,
       0, 0, 0x728292, 0xA2B2C2,
       0, 0, 0, 0]
    screen_width := 4
    screen_height := 4
    screen_is_16bit := false
    trans_color := CLR_NONE
    aVariation := 2 }

/-! ## The returned text and the global buffer `answer` -/

/-- Value of an `int` expression as stored: wrapped into the signed 32-bit range. -/
def wrapInt32 (z : Int) : Int := (z + 2 ^ 31) % 2 ^ 32 - 2 ^ 31

/-- An integer that an `int` holds without wrapping. -/
def IsInt32 (z : Int) : Prop := -(2 ^ 31) ≤ z ∧ z < 2 ^ 31

instance (z : Int) : Decidable (IsInt32 z) := by
  unfold IsInt32; infer_instance

/-- The process-wide variable `char answer[50];`, as the text it holds. -/
structure Globals where
  answer : String
  deriving DecidableEq, Repr

/-- What the `char *` returned by `ImageSearch` points to: the string literal
`"0"`, or the global buffer `answer`. -/
inductive Returned where
  | literalZero : Returned
  | answerBuffer : Returned
  deriving DecidableEq, Repr

/-- The text a caller reads through a returned pointer while the globals are `g`. -/
def textAt (g : Globals) : Returned → String
  | Returned.literalZero => "0"
  | Returned.answerBuffer => g.answer

/-- The field `rect.left` (and `rect.top`) of `RECT rect = {0};`, never reassigned. -/
def rect_origin : Int := 0

/-- The text written by `sprintf_s(answer,"1|%d|%d|%d|%d",locx,locy,image_width,image_height)`;
`%d` prints a signed decimal number. -/
def formatAnswer (locx locy image_width image_height : Int) : String :=
  "1|" ++ toString locx ++ "|" ++ toString locy ++ "|" ++ toString image_width ++ "|"
    ++ toString image_height

/-- The end of `ImageSearch`, from the label `end:` on, given the globals before
the call: `return "0"` when `found` is false, otherwise `locx` and `locy` are
computed, the text is written into `answer`, and `answer` is returned. -/
def ImageSearchEnd (aLeft aTop : Int) (inp : SearchInput) (g : Globals) : Returned × Globals :=
  match search inp with
  | none => (Returned.literalZero, g)
  | some i =>
    let locx := wrapInt32 (wrapInt32 (aLeft + ((i % inp.screen_width : Nat) : Int)) - rect_origin)
    let locy := wrapInt32 (wrapInt32 (aTop + ((i / inp.screen_width : Nat) : Int)) - rect_origin)
    (Returned.answerBuffer,
      { answer := formatAnswer locx locy (inp.image_width : Int) (inp.image_height : Int) })

/-- The text that the caller of one call reads right after it returns. -/
def ImageSearchText (aLeft aTop : Int) (inp : SearchInput) (g : Globals) : String :=
  textAt (ImageSearchEnd aLeft aTop inp g).2 (ImageSearchEnd aLeft aTop inp g).1

/-! ## C strings

A C string is the `List Char` of its characters before the terminating NUL;
a pointer into it is the suffix that starts there. -/

/-- The terminating character of a C string. -/
def NUL : Char := Char.ofNat 0

/-- The expression `*p`: the first character, or the terminator at the end. -/
def deref (p : List Char) : Char := p.headD NUL

/-- From `#define IS_SPACE_OR_TAB(c) (c == ' ' || c == '\t')`. -/
def IS_SPACE_OR_TAB (c : Char) : Bool := c == ' ' || c == '\t'

/-- The function `omit_leading_whitespace`: `for (; IS_SPACE_OR_TAB(*aBuf); ++aBuf);`. -/
def omit_leading_whitespace : List Char → List Char
  | [] => []
  | c :: cs => if IS_SPACE_OR_TAB c then omit_leading_whitespace cs else c :: cs

/-- The outer loop of `StrChrAny`: the first position whose character occurs in `aCharList`. -/
def StrChrAnyLoop (aCharList : List Char) : List Char → Option (List Char)
  | [] => none
  | c :: cs => if aCharList.contains c then some (c :: cs) else StrChrAnyLoop aCharList cs

/-- The function `StrChrAny`; `none` is `NULL`. -/
def StrChrAny (aStr aCharList : List Char) : Option (List Char) :=
  if aStr.isEmpty || aCharList.isEmpty then none else StrChrAnyLoop aCharList aStr

/-- C runtime `toupper` in the "C" locale. -/
def toupper (c : Char) : Char := c.toUpper

/-- C runtime `tolower` in the "C" locale. -/
def tolower (c : Char) : Char := c.toLower

/-- C runtime `isxdigit`. -/
def isxdigit (c : Char) : Bool :=
  ('0' ≤ c && c ≤ '9') || ('a' ≤ c && c ≤ 'f') || ('A' ≤ c && c ≤ 'F')

/-- C runtime `isspace` in the "C" locale: space, `\t`, `\n`, `\v`, `\f`, `\r`. -/
def isspace (c : Char) : Bool := c == ' ' || (9 ≤ c.toNat && c.toNat ≤ 13)

/-- C runtime `_stricmp`: compares the two strings after converting them to
lower case.  Callers only test the result against zero, so only that is
modelled: 0 for equal, 1 for different. -/
def _stricmp (a b : List Char) : Int :=
  if a.map tolower = b.map tolower then 0 else 1

/-- C runtime `_strnicmp`: `_stricmp` on at most the first `n` characters of each string. -/
def _strnicmp (a b : List Char) (n : Nat) : Int := _stricmp (a.take n) (b.take n)

/-- Value of `c` as a digit in `base` (10 or 16), if it is one. -/
def digitValue (base : Nat) (c : Char) : Option Nat :=
  if '0' ≤ c && c ≤ '9' then some (c.toNat - 48)
  else if base = 16 && 'a' ≤ c && c ≤ 'f' then some (c.toNat - 87)
  else if base = 16 && 'A' ≤ c && c ≤ 'F' then some (c.toNat - 55)
  else none

/-- The digits at the start of a string, accumulated in `base`; conversion
stops at the first character that is not a digit. -/
def digitsValue (base : Nat) (acc : Nat) : List Char → Nat
  | [] => acc
  | c :: cs =>
    match digitValue base c with
    | some d => digitsValue base (acc * base + d) cs
    | none => acc

/-- Out-of-range results of `atoi` and `strtol` are `INT_MAX`/`LONG_MAX` or
`INT_MIN`/`LONG_MIN` (the Microsoft C runtime; `long` has 32 bits). -/
def saturateLong (z : Int) : Int := max (-(2 ^ 31)) (min (2 ^ 31 - 1) z)

/-- Leading white space as skipped by `atoi` and `strtol`. -/
def skipSpaces : List Char → List Char
  | [] => []
  | c :: cs => if isspace c then skipSpaces cs else c :: cs

/-- An optional sign followed by digits in `base`, as a mathematical integer. -/
def signedDigits (base : Nat) (s : List Char) : Int :=
  if deref s = '-' then -((digitsValue base 0 (s.drop 1) : Nat) : Int)
  else if deref s = '+' then ((digitsValue base 0 (s.drop 1) : Nat) : Int)
  else ((digitsValue base 0 s : Nat) : Int)

/-- C runtime `atoi`. -/
def atoi (s : List Char) : Int := saturateLong (signedDigits 10 (skipSpaces s))

/-- The digits of a base-16 `strtol` after the sign: an optional `0x` or `0X`, then hex digits. -/
def hexBody (s : List Char) : Nat :=
  if s.getD 0 NUL = '0' && (s.getD 1 NUL = 'x' || s.getD 1 NUL = 'X') then
    digitsValue 16 0 (s.drop 2)
  else digitsValue 16 0 s

/-- C runtime `strtol(s, NULL, 16)`. -/
def strtol16 (s : List Char) : Int :=
  let t := skipSpaces s
  saturateLong
    (if deref t = '-' then -((hexBody (t.drop 1) : Nat) : Int)
     else if deref t = '+' then ((hexBody (t.drop 1) : Nat) : Int)
     else ((hexBody t : Nat) : Int))

/-- From `#define IS_HEX(buf)` inside `IsHex`:
`*buf == '0' && (*(buf + 1) == 'x' || *(buf + 1) == 'X') && isxdigit(*(buf + 2))`. -/
def IS_HEX (buf : List Char) : Bool :=
  buf.getD 0 NUL == '0' && (buf.getD 1 NUL == 'x' || buf.getD 1 NUL == 'X')
    && isxdigit (buf.getD 2 NUL)

/-- The function `IsHex`. -/
def IsHex (aBuf : List Char) : Bool :=
  let aBuf := omit_leading_whitespace aBuf
  if deref aBuf = NUL then false
  else
    let aBuf := if deref aBuf = '-' || deref aBuf = '+' then aBuf.drop 1 else aBuf
    IS_HEX aBuf

/-- The function `ATOI`: `IsHex(buf) ? strtol(buf, NULL, 16) : atoi(buf)`. -/
def ATOI (buf : List Char) : Int := if IsHex buf then strtol16 buf else atoi buf

/-- The function `strlcpy(aDst, aSrc, aDstSize)`: the contents of `aDst` afterwards. -/
def strlcpy (aSrc : List Char) (aDstSize : Nat) : List Char := aSrc.take (aDstSize - 1)

/-! ## Colours -/

/-- From `#define CLR_DEFAULT 0x808080`. -/
def CLR_DEFAULT : Nat := 0x808080

/-- Windows SDK `RGB(r,g,b)`:
`(BYTE)(r) | ((WORD)((BYTE)(g)) << 8) | (((DWORD)(BYTE)(b)) << 16)`. -/
def RGB (r g b : Nat) : Nat := (r % 256) ||| ((g % 256) <<< 8) ||| ((b % 256) <<< 16)

/-- The function `rgb_to_bgr`. -/
def rgb_to_bgr (aRGB : Nat) : Nat := RGB (GetBValue aRGB) (GetGValue aRGB) (GetRValue aRGB)

/-- From `#define bgr_to_rgb(aBGR) rgb_to_bgr(aBGR)`. -/
def bgr_to_rgb (aBGR : Nat) : Nat := rgb_to_bgr aBGR

/-- The function `ColorNameToBGR`. -/
def ColorNameToBGR (aColorName : List Char) : Nat :=
  if aColorName.isEmpty then CLR_NONE
  else if _stricmp aColorName "Black".toList = 0 then 0x000000
  else if _stricmp aColorName "Silver".toList = 0 then 0xC0C0C0
  else if _stricmp aColorName "Gray".toList = 0 then 0x808080
  else if _stricmp aColorName "White".toList = 0 then 0xFFFFFF
  else if _stricmp aColorName "Maroon".toList = 0 then 0x000080
  else if _stricmp aColorName "Red".toList = 0 then 0x0000FF
  else if _stricmp aColorName "Purple".toList = 0 then 0x800080
  else if _stricmp aColorName "Fuchsia".toList = 0 then 0xFF00FF
  else if _stricmp aColorName "Green".toList = 0 then 0x008000
  else if _stricmp aColorName "Lime".toList = 0 then 0x00FF00
  else if _stricmp aColorName "Olive".toList = 0 then 0x008080
  else if _stricmp aColorName "Yellow".toList = 0 then 0x00FFFF
  else if _stricmp aColorName "Navy".toList = 0 then 0x800000
  else if _stricmp aColorName "Blue".toList = 0 then 0xFF0000
  else if _stricmp aColorName "Teal".toList = 0 then 0x808000
  else if _stricmp aColorName "Aqua".toList = 0 then 0xFFFF00
  else if _stricmp aColorName "Default".toList = 0 then CLR_DEFAULT
  else CLR_NONE
/-! ## The asterisk-options of the image-file argument -/

/-- The variables that the options loop of `ImageSearch` may assign. -/
structure Options where
  aVariation : Int
  trans_color : Nat
  icon_number : Int
  width : Int
  height : Int
  deriving DecidableEq, Repr

/-- The two `if` statements after `aVariation = ATOI(cp);`. -/
def clampVariation (aVariation : Int) : Int :=
  let aVariation := if aVariation < 0 then 0 else aVariation
  if aVariation > 255 then 255 else aVariation

/-- The colour name isolated by the `*Trans` branch: `strlcpy` into
`char color_name[32]`, then cut at the first space or tab. -/
def isolateColorName (cp : List Char) : List Char :=
  let color_name := strlcpy cp 32
  match StrChrAny color_name " \t".toList with
  | some dp => color_name.take (color_name.length - dp.length)
  | none => color_name

/-- The value given to `trans_color` by the `*Trans` branch; the `long` from
`strtol` is converted to the unsigned 32-bit `COLORREF`. -/
def transColorOf (color_name : List Char) : Nat :=
  let trans_color := ColorNameToBGR color_name
  if trans_color = CLR_NONE then (strtol16 color_name % 2 ^ 32).toNat
  else bgr_to_rgb trans_color

/-- The `switch (toupper(*cp))` statement, with `cp` just after the asterisk:
the updated variables and the updated `cp`. -/
def applyOption (o : Options) (cp : List Char) : Options × List Char :=
  if toupper (deref cp) = 'W' then ({ o with width := ATOI (cp.drop 1) }, cp)
  else if toupper (deref cp) = 'H' then ({ o with height := ATOI (cp.drop 1) }, cp)
  else if _strnicmp cp "Icon".toList 4 = 0 then
    ({ o with icon_number := ATOI (cp.drop 4) }, cp.drop 4)
  else if _strnicmp cp "Trans".toList 5 = 0 then
    ({ o with trans_color := transColorOf (isolateColorName (cp.drop 5)) }, cp.drop 5)
  else ({ o with aVariation := clampVariation (ATOI cp) }, cp)

/-- One iteration of `while (*cp == '*')`, with `cp` just after the asterisk.
`none` is `return "0"`; otherwise the updated variables, the new `aImageFile`
and the new `cp`. -/
def optionIteration (o : Options) (cp : List Char) :
    Option (Options × List Char × List Char) :=
  match StrChrAny (applyOption o cp).2 " \t".toList with
  | none => none
  | some sp => some ((applyOption o cp).1, sp.drop 1, omit_leading_whitespace (sp.drop 1))

/-- The loop `while (*cp == '*')`, bounded by `fuel` iterations.  The outer
`none` means the bound was reached; inside, `none` is `return "0"` and
`some (o, aImageFile)` is the state when the loop ends. -/
def optionsLoop : Nat → Options → List Char → List Char → Option (Option (Options × List Char))
  | 0, _, _, _ => none
  | fuel + 1, o, aImageFile, cp =>
    if deref cp = '*' then
      match optionIteration o (cp.drop 1) with
      | none => some none
      | some (o2, aImageFile2, cp2) => optionsLoop fuel o2 aImageFile2 cp2
    else some (some (o, aImageFile))

/-- The options part of `ImageSearch`: `cp = omit_leading_whitespace(aImageFile)`
and the loop, which shortens `cp` in every iteration, so that the length of
the argument plus one bounds the number of iterations. -/
def parseOptions (o : Options) (aImageFile : List Char) : Option (Option (Options × List Char)) :=
  optionsLoop (aImageFile.length + 1) o aImageFile (omit_leading_whitespace aImageFile)

/-- The defaults set before the options loop, for an image file that is not an
icon, an executable or a library (`width` and `height` stay 0). -/
def defaultOptions : Options :=
  { aVariation := 0, trans_color := CLR_NONE, icon_number := 0, width := 0, height := 0 }

/-- The buffers and dimensions delivered by `LoadPicture`, `GetIconInfo` and `getbits`. -/
structure Buffers where
  image_pixel : List Nat
  image_mask : Option (List Nat)
  image_width : Nat
  image_height : Nat
  image_is_16bit : Bool
  screen_pixel : List Nat
  screen_width : Nat
  screen_height : Nat
  screen_is_16bit : Bool
  deriving DecidableEq, Repr

/-- The input of the matching core for parsed options and captured buffers. -/
def searchInputOf (o : Options) (b : Buffers) : SearchInput :=
  { image_pixel := b.image_pixel
    image_mask := b.image_mask
    image_width := b.image_width
    image_height := b.image_height
    image_is_16bit := b.image_is_16bit
    screen_pixel := b.screen_pixel
    screen_width := b.screen_width
    screen_height := b.screen_height
    screen_is_16bit := b.screen_is_16bit
    trans_color := o.trans_color
    aVariation := o.aVariation.toNat }
/-- Specification: the 16 HTML colour names with their standard `0xRRGGBB` values. -/
def htmlColours : List (String × Nat) :=
  [("Black", 0x000000), ("Silver", 0xC0C0C0), ("Gray", 0x808080), ("White", 0xFFFFFF),
   ("Maroon", 0x800000), ("Red", 0xFF0000), ("Purple", 0x800080), ("Fuchsia", 0xFF00FF),
   ("Green", 0x008000), ("Lime", 0x00FF00), ("Olive", 0x808000), ("Yellow", 0xFFFF00),
   ("Navy", 0x000080), ("Blue", 0x0000FF), ("Teal", 0x008080), ("Aqua", 0x00FFFF)]

/-- Specification: after leading spaces or tabs and an optional sign, the text
starts with `0x` or `0X` followed by at least one hex digit. -/
def HexForm (s : List Char) : Prop :=
  ∃ (ws sign rest : List Char) (x d : Char),
    s = ws ++ (sign ++ '0' :: x :: d :: rest) ∧
    (∀ c, c ∈ ws → IS_SPACE_OR_TAB c = true) ∧
    (sign = [] ∨ sign = ['-'] ∨ sign = ['+']) ∧
    (x = 'x' ∨ x = 'X') ∧ isxdigit d = true

/-! ## `ImageSearch` as a whole -/

/-- The text after the last `.` of a string: `strrchr(aImageFile, '.')` followed by `++cp`;
`none` when there is no dot. -/
def extensionOf : List Char → Option (List Char)
  | [] => none
  | c :: cs =>
    match extensionOf cs with
    | some e => some e
    | none => if c = '.' then some cs else none

/-- The defaults set before the options loop.  For an `ico`, `exe` or `dll` file
`width` and `height` start as the small-icon metrics, which are parameters
here (`GetSystemMetrics(SM_CXSMICON)` and `GetSystemMetrics(SM_CYSMICON)`). -/
def initialOptions (aImageFile : List Char) (cxSmIcon cySmIcon : Int) : Options :=
  let isIcon : Bool :=
    match extensionOf aImageFile with
    | some cp =>
      !(_stricmp cp "ico".toList != 0 && _stricmp cp "exe".toList != 0
        && _stricmp cp "dll".toList != 0)
    | none => false
  { aVariation := 0
    trans_color := CLR_NONE
    icon_number := 0
    width := if isIcon then cxSmIcon else 0
    height := if isIcon then cySmIcon else 0 }

set_option linter.dupNamespace false

/-- The function `ImageSearch`.  The calls into Windows between the options loop
and the scan (`LoadPicture`, `GetDC`, `GetIconInfo`, `IconToBitmap`, `getbits`,
`BitBlt`) are the parameter `capture`: from the parsed options and the file
name it delivers the buffers, or fails, in which case `"0"` is returned. -/
def ImageSearch (capture : Options → List Char → Option Buffers) (cxSmIcon cySmIcon : Int)
    (aLeft aTop : Int) (aImageFile : List Char) (g : Globals) : Returned × Globals :=
  match parseOptions (initialOptions aImageFile cxSmIcon cySmIcon) aImageFile with
  | none => (Returned.literalZero, g)
  | some none => (Returned.literalZero, g)
  | some (some (o, file)) =>
    match capture o file with
    | none => (Returned.literalZero, g)
    | some b => ImageSearchEnd aLeft aTop (searchInputOf o b) g

/-- Specification: the state `(variables, aImageFile, cp)` at the head of the
options loop leads, through iterations that are not rejected, to another
state at the head of the loop. -/
inductive LoopReaches :
    Options × List Char × List Char → Options × List Char × List Char → Prop where
  | here (st : Options × List Char × List Char) : LoopReaches st st
  | next (o : Options) (f cp : List Char) (st2 st3 : Options × List Char × List Char) :
      deref cp = '*' → optionIteration o (cp.drop 1) = some st2 → LoopReaches st2 st3 →
      LoopReaches (o, f, cp) st3

/-- A stand-in for the Windows calls that delivers the buffers of `sampleInput`. -/
def sampleCapture (_o : Options) (_file : List Char) : Option Buffers :=
  some
    { image_pixel := sampleInput.image_pixel
      image_mask := none
      image_width := 2
      image_height := 2
      image_is_16bit := false
      screen_pixel := sampleInput.screen_pixel
      screen_width := 4
      screen_height := 4
      screen_is_16bit := false }

/-! ## The 8-bit conversion of `getbits`

The buffer `image_pixel` is seen as bytes, by their offset from its start;
the pointers `byte` and `pixel` are an offset in bytes and an index of a
32-bit slot. -/

/-- The assignment `*pixel = v` with `pixel` at slot `p`: the four bytes of the
slot receive the four bytes of `v`. -/
def storeDword (mem : Int → Nat) (p : Int) (v : Nat) : Int → Nat :=
  fun a => if 4 * p ≤ a ∧ a < 4 * p + 4 then (v >>> (8 * (a - 4 * p).toNat)) % 256 else mem a

/-- The value `pixel[p]` of the 32-bit slot `p`. -/
def loadDword (mem : Int → Nat) (p : Int) : Nat :=
  mem (4 * p) + 256 * mem (4 * p + 1) + 65536 * mem (4 * p + 2) + 16777216 * mem (4 * p + 3)

/-- The buffer and the two pointers of the conversion loop. -/
structure ExpandState where
  mem : Int → Nat
  byte : Int
  pixel : Int

/-- The inner loop
`for (col = 0; col < aWidth; ++col) *pixel-- = rgb_to_bgr(palette[*byte--]);`,
by the number of columns left. -/
def expandRow (palette : Nat → Nat) : Nat → ExpandState → ExpandState
  | 0, s => s
  | n + 1, s =>
    expandRow palette n
      { mem := storeDword s.mem s.pixel (rgb_to_bgr (palette (s.mem s.byte)))
        byte := s.byte - 1
        pixel := s.pixel - 1 }

/-- The outer loop `for (row = 0; row < aHeight; ++row)`, by the number of rows
left: `byte -= empty_bytes_at_end_of_each_row;` and then the inner loop. -/
def expandRows (palette : Nat → Nat) (aWidth empty_bytes_at_end_of_each_row : Nat) :
    Nat → ExpandState → ExpandState
  | 0, s => s
  | n + 1, s =>
    expandRows palette aWidth empty_bytes_at_end_of_each_row n
      (expandRow palette aWidth
        { s with byte := s.byte - (empty_bytes_at_end_of_each_row : Int) })

/-- From `int remainder = aWidth % 4;` and
`int empty_bytes_at_end_of_each_row = remainder ? (4 - remainder) : 0;`. -/
def emptyBytesAtEndOfEachRow (aWidth : Nat) : Nat :=
  if aWidth % 4 ≠ 0 then 4 - aWidth % 4 else 0

/-- The `if (is_8bit)` section of `getbits`: the buffer after the conversion. -/
def expandPalette (palette : Nat → Nat) (aWidth aHeight : Nat) (mem : Int → Nat) : Int → Nat :=
  (expandRows palette aWidth (emptyBytesAtEndOfEachRow aWidth) aHeight
    { mem := mem
      byte := ((aWidth * aHeight : Nat) : Int) - 1
        + ((aHeight * emptyBytesAtEndOfEachRow aWidth : Nat) : Int)
      pixel := ((aWidth * aHeight : Nat) : Int) - 1 }).mem

/-- Specification: the one-pass conversion into a new buffer; the pixel at row
`r`, column `c` is the converted palette entry of the index byte at
`r * (aWidth + pad) + c`. -/
def expandFresh (palette : Nat → Nat) (aWidth aHeight pad : Nat) (mem : Int → Nat) : List Nat :=
  (List.range (aWidth * aHeight)).map
    (fun p => rgb_to_bgr (palette (mem (((p / aWidth) * (aWidth + pad) + p % aWidth : Nat) : Int))))

/-- State of the buffer when the slots from `q` on have been written: the bytes
below `4 * q` are as they were, and each written slot holds the colour of
its pixel. -/
def ExpandInv (palette : Nat → Nat) (W H pad : Nat) (mem0 mem : Int → Nat) (q : Nat) : Prop :=
  (∀ a : Int, a < 4 * (q : Int) → mem a = mem0 a) ∧
  (∀ r c : Nat, r < H → c < W → q ≤ r * W + c →
    loadDword mem ((r * W + c : Nat) : Int)
      = rgb_to_bgr (palette (mem0 ((r * (W + pad) + c : Nat) : Int))))

/-- A 3x2 image of palette indices in rows of 4 bytes (one padding byte each). -/
def sampleIndexed : Int → Nat := fun a =>
  [1, 2, 3, 0, 4, 5, 6, 0].getD a.toNat 0

/-- A palette whose entry `i` has red `i`, green `2 * i` and blue `3 * i`. -/
def samplePalette : Nat → Nat := fun i => RGB i (2 * i) (3 * i)

/-- Specification: the transparency mask marks template offset `j`: the
template has a mask and the mask's entry at `j` is not zero. -/
def MaskEntrySet (image_mask : Option (List Nat)) (j : Nat) : Prop :=
  ∃ m, image_mask = some m ∧ m.getD j 0 ≠ 0

instance (image_mask : Option (List Nat)) (j : Nat) : Decidable (MaskEntrySet image_mask j) :=
  match image_mask with
  | none => isFalse (fun h => by obtain ⟨m, hm, _⟩ := h; cases hm)
  | some m =>
    if h : m.getD j 0 ≠ 0 then isTrue ⟨m, rfl, h⟩
    else isFalse (fun hx => by obtain ⟨m2, hm, hne⟩ := hx; cases hm; exact h hne)

/-- The template of `sampleInput` with its first pixel replaced by `0x999999`,
a colour that is nowhere in the surface, and an icon mask that marks that
pixel only. -/
def sampleMasked : SearchInput :=
  { sampleInput with
    image_pixel := [0x999999, 0x040506, 0x070809, 0x0A0B0C]
    image_mask := some [0xFFFFFF, 0, 0, 0] }

/-! ## The function `getbits` and the capture of the two buffers -/

end ImageSearch

namespace ImageSearch

/-! ## Facts about the loops -/

theorem length_maskPixels (m : Nat) (n : Nat) (ps : List Nat) :
    (maskPixels m n ps).length = ps.length := by
  induction n generalizing ps with
  | zero => simp [maskPixels]
  | succ n ih =>
    cases ps with
    | nil => simp [maskPixels]
    | cons p ps => simp [maskPixels, ih]

theorem getD_maskPixels (m : Nat) (n : Nat) (ps : List Nat) (i : Nat) :
    (maskPixels m n ps).getD i 0 = if i < n then ps.getD i 0 &&& m else ps.getD i 0 := by
  induction n generalizing ps i with
  | zero => simp [maskPixels]
  | succ n ih =>
    cases ps with
    | nil => simp [maskPixels]
    | cons p ps =>
      cases i with
      | zero => simp [maskPixels]
      | succ i => simpa [maskPixels] using ih ps i

theorem maskPixels_eq_map (m : Nat) (n : Nat) (ps : List Nat) (h : ps.length ≤ n) :
    maskPixels m n ps = ps.map (fun p => p &&& m) := by
  induction n generalizing ps with
  | zero =>
    have : ps = [] := List.length_eq_zero.mp (Nat.le_zero.mp h)
    subst this; simp [maskPixels]
  | succ n ih =>
    cases ps with
    | nil => simp [maskPixels]
    | cons p ps =>
      simp only [maskPixels, List.map_cons]
      rw [ih ps (by simpa using h)]

/-- The inner loop, started in a state that satisfies its invariant, succeeds
exactly when every remaining template offset passes the per-pixel test at the
surface index `i + (j / image_width) * screen_width + j % image_width`. -/
theorem matchLoop_iff (pixelOk : Nat → Nat → Bool) (tw sw i : Nat) (htw : 0 < tw)
    (n x y j k : Nat) (hx : x = j % tw) (hy : y = j / tw) (hk : k = i + y * sw + x) :
    matchLoop pixelOk tw sw i n x y j k = true ↔
      ∀ m, m < n → pixelOk (j + m) (i + ((j + m) / tw) * sw + (j + m) % tw) = true := by
  induction n generalizing x y j k with
  | zero => simp [matchLoop]
  | succ n ih =>
    have hdm : tw * (j / tw) + j % tw = j := Nat.div_add_mod j tw
    have hlt : j % tw < tw := Nat.mod_lt j htw
    have hstep : ∀ P : Nat → Prop, (∀ m, m < n + 1 → P (j + m)) ↔
        (P j ∧ ∀ m, m < n → P (j + 1 + m)) := by
      intro P
      constructor
      · intro h
        refine ⟨by simpa using h 0 (Nat.succ_pos n), fun m hm => ?_⟩
        have := h (m + 1) (Nat.succ_lt_succ hm)
        rwa [show j + (m + 1) = j + 1 + m by omega] at this
      · rintro ⟨h0, h1⟩ m hm
        cases m with
        | zero => simpa using h0
        | succ m =>
          rw [show j + (m + 1) = j + 1 + m by omega]
          exact h1 m (by omega)
    rw [hstep (fun t => pixelOk t (i + (t / tw) * sw + t % tw) = true)]
    unfold matchLoop
    have hkj : k = i + j / tw * sw + j % tw := by rw [hk, hy, hx]
    have hj : j = tw * y + x := by rw [hx, hy]; exact hdm.symm
    have hxlt : x < tw := hx ▸ hlt
    by_cases hp : pixelOk j k = true
    · rw [if_pos hp]
      have hp' : pixelOk j (i + j / tw * sw + j % tw) = true := hkj ▸ hp
      by_cases hxw : x + 1 < tw
      · rw [if_pos hxw]
        have hj1 : j + 1 = tw * y + (x + 1) := by omega
        have hmod : x + 1 = (j + 1) % tw := by
          rw [hj1, Nat.mul_add_mod, Nat.mod_eq_of_lt hxw]
        have hdiv : y = (j + 1) / tw := by
          rw [hj1, Nat.mul_add_div htw, Nat.div_eq_of_lt hxw, Nat.add_zero]
        rw [ih (x + 1) y (j + 1) (k + 1) hmod hdiv (by rw [hk]; omega)]
        simp [hp']
      · rw [if_neg hxw]
        have hj1 : j + 1 = tw * (y + 1) := by
          rw [Nat.mul_add, Nat.mul_one]; omega
        have hmod : 0 = (j + 1) % tw := by
          rw [hj1, Nat.mul_mod_right]
        have hdiv : y + 1 = (j + 1) / tw := by
          rw [hj1, Nat.mul_div_cancel_left _ htw]
        rw [ih 0 (y + 1) (j + 1) (i + (y + 1) * sw) hmod hdiv (by omega)]
        simp [hp']
    · rw [if_neg hp]
      simp only [Bool.false_eq_true, false_iff, not_and]
      intro h; rw [← hkj] at h; exact absurd h hp


/-- The full comparison at candidate `i`, as started by both scans, succeeds
exactly when every template pixel `(r, c)` passes the per-pixel test against
the surface index `i + r * screen_width + c`. -/
theorem matchLoop_start (pixelOk : Nat → Nat → Bool) (tw th sw i : Nat) (htw : 0 < tw) :
    matchLoop pixelOk tw sw i (tw * th) 0 0 0 i = true ↔
      ∀ r, r < th → ∀ c, c < tw → pixelOk (r * tw + c) (i + r * sw + c) = true := by
  rw [matchLoop_iff pixelOk tw sw i htw (tw * th) 0 0 0 i (Nat.zero_mod tw).symm
    (Nat.zero_div tw).symm (by simp)]
  constructor
  · intro h r hr c hc
    have hm : r * tw + c < tw * th := by
      calc r * tw + c < r * tw + tw := by omega
        _ = tw * (r + 1) := by rw [Nat.mul_add, Nat.mul_one, Nat.mul_comm]
        _ ≤ tw * th := Nat.mul_le_mul_left tw hr
    have := h (r * tw + c) hm
    have hdiv : (r * tw + c) / tw = r := by
      rw [Nat.mul_comm, Nat.mul_add_div htw, Nat.div_eq_of_lt hc, Nat.add_zero]
    have hmod : (r * tw + c) % tw = c := by
      rw [Nat.mul_comm, Nat.mul_add_mod, Nat.mod_eq_of_lt hc]
    simpa [hdiv, hmod] using this
  · intro h m hm
    have hr : m / tw < th := Nat.div_lt_of_lt_mul hm
    have := h (m / tw) hr (m % tw) (Nat.mod_lt m htw)
    have hdm : m / tw * tw + m % tw = m := by
      rw [Nat.mul_comm]; exact Nat.div_add_mod m tw
    rw [hdm] at this
    simpa using this

theorem scanLoop_eq_some_iff (candidate : Nat → Bool) (n i r : Nat) :
    scanLoop candidate n i = some r ↔
      i ≤ r ∧ r < i + n ∧ candidate r = true ∧ ∀ t, i ≤ t → t < r → candidate t = false := by
  induction n generalizing i with
  | zero =>
    simp only [scanLoop, Nat.add_zero]
    constructor
    · intro h; cases h
    · rintro ⟨h1, h2, _⟩; omega
  | succ n ih =>
    unfold scanLoop
    by_cases hc : candidate i = true
    · rw [if_pos hc]
      constructor
      · intro h
        have hri : i = r := Option.some.inj h
        subst hri
        exact ⟨Nat.le_refl _, by omega, hc, fun t h1 h2 => by omega⟩
      · rintro ⟨h1, _, _, h4⟩
        by_cases hir : i = r
        · rw [hir]
        · have := h4 i (Nat.le_refl _) (by omega)
          rw [this] at hc; cases hc
    · rw [if_neg hc, ih (i + 1)]
      have hcf : candidate i = false := by simpa using hc
      constructor
      · rintro ⟨h1, h2, h3, h4⟩
        refine ⟨by omega, by omega, h3, fun t ht1 ht2 => ?_⟩
        by_cases hti : t = i
        · rw [hti]; exact hcf
        · exact h4 t (by omega) ht2
      · rintro ⟨h1, h2, h3, h4⟩
        have hne : i ≠ r := by
          intro e; rw [e] at hcf; rw [hcf] at h3; cases h3
        exact ⟨by omega, by omega, h3, fun t ht1 ht2 => h4 t (by omega) ht2⟩

theorem scanLoop_eq_none_iff (candidate : Nat → Bool) (n i : Nat) :
    scanLoop candidate n i = none ↔ ∀ t, i ≤ t → t < i + n → candidate t = false := by
  induction n generalizing i with
  | zero =>
    simp only [scanLoop, Nat.add_zero, true_iff]
    intro t h1 h2; omega
  | succ n ih =>
    unfold scanLoop
    by_cases hc : candidate i = true
    · rw [if_pos hc]
      constructor
      · intro h; cases h
      · intro h
        have := h i (Nat.le_refl _) (by omega)
        rw [this] at hc; cases hc
    · rw [if_neg hc, ih (i + 1)]
      have hcf : candidate i = false := by simpa using hc
      constructor
      · intro h t ht1 ht2
        by_cases hti : t = i
        · rw [hti]; exact hcf
        · exact h t (by omega) (by omega)
      · intro h t ht1 ht2
        exact h t (by omega) (by omega)


theorem GetRValue_lt (p : Nat) : GetRValue p < 256 := Nat.mod_lt _ (by decide)
theorem GetGValue_lt (p : Nat) : GetGValue p < 256 := Nat.mod_lt _ (by decide)
theorem GetBValue_lt (p : Nat) : GetBValue p < 256 := Nat.mod_lt _ (by decide)

/-- The two comparisons against the bounds of `SET_COLOR_RANGE` for one channel
say that the surface channel is in the specification's band. -/
theorem channel_test_iff (v c s : Nat) (hc : c < 256) (hs : s < 256) :
    (s ≥ (if v > c then 0 else c - v) % 256 ∧
      s ≤ (if v > 0xFF - c then 0xFF else c + v) % 256) ↔ InBand v c s := by
  unfold InBand
  by_cases h1 : v > c <;> by_cases h2 : v > 0xFF - c <;> simp only [h1, h2, if_true, if_false] <;>
    omega

theorem exactPixel_iff (img scr : List Nat) (mask : Option (List Nat)) (tc j k : Nat) :
    exactPixel img scr mask tc j k = true ↔
      (maskSet mask j = true ∨ img.getD j 0 = tc) ∨ scr.getD k 0 = img.getD j 0 := by
  unfold exactPixel
  simp only [Bool.or_eq_true, beq_iff_eq]
  tauto

theorem variationPixel_iff (img scr : List Nat) (mask : Option (List Nat)) (tc v j k : Nat) :
    variationPixel img scr mask tc v j k = true ↔
      (maskSet mask j = true ∨ img.getD j 0 = tc) ∨
        (InBand v (GetRValue (img.getD j 0)) (GetRValue (scr.getD k 0)) ∧
          InBand v (GetGValue (img.getD j 0)) (GetGValue (scr.getD k 0)) ∧
          InBand v (GetBValue (img.getD j 0)) (GetBValue (scr.getD k 0))) := by
  unfold variationPixel SET_COLOR_RANGE
  simp only [Bool.or_eq_true, Bool.and_eq_true, decide_eq_true_eq, beq_iff_eq]
  rw [← channel_test_iff v _ _ (GetRValue_lt (img.getD j 0)) (GetRValue_lt (scr.getD k 0)),
    ← channel_test_iff v _ _ (GetGValue_lt (img.getD j 0)) (GetGValue_lt (scr.getD k 0)),
    ← channel_test_iff v _ _ (GetBValue_lt (img.getD j 0)) (GetBValue_lt (scr.getD k 0))]
  tauto

theorem fitsAt_iff (inp : SearchInput) (i : Nat) :
    fitsAt inp.image_width inp.image_height inp.screen_width inp.screen_height i = true ↔
      Fits inp i := by
  unfold fitsAt Fits
  simp only [Bool.and_eq_true, decide_eq_true_eq]

theorem search_eq_scanLoop (inp : SearchInput) :
    search inp = scanLoop (candidate inp) (screen_pixel_count inp) 0 := by
  unfold search scanExact scanVariation screen_pixel_count
  by_cases h : inp.aVariation < 1
  · rw [if_pos h]
    congr 1
    funext i
    simp only [candidate, if_pos h]
  · rw [if_neg h]
    congr 1
    funext i
    simp only [candidate, if_neg h]

/-- For a template with at least one pixel, the guarded comparison run by the
selected scan at counter `i` succeeds exactly when the template fits at `i`
and the full comparison, in the specification's terms, succeeds there. -/
theorem candidate_iff (inp : SearchInput) (i : Nat) (htw : 0 < inp.image_width)
    (hth : 0 < inp.image_height) :
    candidate inp i = true ↔ Fits inp i ∧ MatchesAt inp i := by
  unfold candidate
  by_cases h : inp.aVariation < 1
  · have hv : inp.aVariation = 0 := by omega
    rw [if_pos h]
    unfold exactCandidate
    rw [Bool.and_eq_true, Bool.and_eq_true, fitsAt_iff,
      matchLoop_start _ _ _ _ _ htw]
    have hpix : ∀ j k, exactPixel (normImage inp) (normScreen inp) inp.image_mask
        (normTransColor inp) j k = true ↔ PixelMatches inp j k := by
      intro j k
      rw [exactPixel_iff]
      unfold PixelMatches Transparent ColourMatches
      rw [if_pos hv]
    constructor
    · rintro ⟨⟨_, hf⟩, hm⟩
      exact ⟨hf, fun r hr c hc => (hpix _ _).mp (hm r hr c hc)⟩
    · rintro ⟨hf, hm⟩
      refine ⟨⟨?_, hf⟩, fun r hr c hc => (hpix _ _).mpr (hm r hr c hc)⟩
      have := (hpix _ _).mpr (hm 0 hth 0 htw)
      simpa using this
  · have hv : ¬ inp.aVariation = 0 := by omega
    rw [if_neg h]
    unfold variationCandidate
    rw [Bool.and_eq_true, fitsAt_iff, matchLoop_start _ _ _ _ _ htw]
    have hpix : ∀ j k, variationPixel (normImage inp) (normScreen inp) inp.image_mask
        (normTransColor inp) inp.aVariation j k = true ↔ PixelMatches inp j k := by
      intro j k
      rw [variationPixel_iff]
      unfold PixelMatches Transparent ColourMatches
      rw [if_neg hv]
    constructor
    · rintro ⟨hf, hm⟩
      exact ⟨hf, fun r hr c hc => (hpix _ _).mp (hm r hr c hc)⟩
    · rintro ⟨hf, hm⟩
      exact ⟨hf, fun r hr c hc => (hpix _ _).mpr (hm r hr c hc)⟩

/-- Characterisation of a hit, for a template with at least one pixel. -/
theorem search_eq_some_iff (inp : SearchInput) (i : Nat) (htw : 0 < inp.image_width)
    (hth : 0 < inp.image_height) :
    search inp = some i ↔
      i < inp.screen_width * inp.screen_height ∧ Fits inp i ∧ MatchesAt inp i ∧
        ∀ t, t < i → ¬ (Fits inp t ∧ MatchesAt inp t) := by
  rw [search_eq_scanLoop, scanLoop_eq_some_iff, candidate_iff inp i htw hth]
  unfold screen_pixel_count
  constructor
  · rintro ⟨_, h2, ⟨h3, h4⟩, h5⟩
    refine ⟨by omega, h3, h4, fun t ht hc => ?_⟩
    have := h5 t (Nat.zero_le _) ht
    rw [(candidate_iff inp t htw hth).mpr hc] at this
    cases this
  · rintro ⟨h1, h2, h3, h4⟩
    refine ⟨Nat.zero_le _, by omega, ⟨h2, h3⟩, fun t _ ht => ?_⟩
    have := h4 t ht
    rw [← candidate_iff inp t htw hth] at this
    simpa using this


/-- Characterisation of a miss, for a template with at least one pixel. -/
theorem search_eq_none_iff (inp : SearchInput) (htw : 0 < inp.image_width)
    (hth : 0 < inp.image_height) :
    search inp = none ↔
      ∀ t, t < inp.screen_width * inp.screen_height → ¬ (Fits inp t ∧ MatchesAt inp t) := by
  rw [search_eq_scanLoop, scanLoop_eq_none_iff]
  unfold screen_pixel_count
  constructor
  · intro h t ht hc
    have := h t (Nat.zero_le _) (by omega)
    rw [(candidate_iff inp t htw hth).mpr hc] at this
    cases this
  · intro h t _ ht
    by_contra hc
    have hc' : candidate inp t = true := by simpa using hc
    exact h t (by omega) ((candidate_iff inp t htw hth).mp hc')

theorem candidate_imp_fits (inp : SearchInput) (i : Nat) (h : candidate inp i = true) :
    Fits inp i := by
  unfold candidate at h
  rw [← fitsAt_iff]
  by_cases hv : inp.aVariation < 1
  · rw [if_pos hv] at h
    unfold exactCandidate at h
    rw [Bool.and_eq_true, Bool.and_eq_true] at h
    exact h.1.2
  · rw [if_neg hv] at h
    unfold variationCandidate at h
    rw [Bool.and_eq_true] at h
    exact h.1

/-! ## The claims -/

/-- C1 (soundness of a hit). For a template with at least one pixel, if the
search reports a match at surface index `i`, with `x = i % screen_width` and
`y = i / screen_width`, then `x + image_width ≤ screen_width`,
`y + image_height ≤ screen_height`, and every template pixel `(r, c)` either
is transparent (mask entry set, or equal to the transparent colour) or
matches the normalised surface pixel at row `y + r`, column `x + c`: equal
when the variation is 0, inside the band of each channel otherwise. -/
theorem hit_is_sound (inp : SearchInput) (i : Nat) (htw : 0 < inp.image_width)
    (hth : 0 < inp.image_height) (h : search inp = some i) :
    i % inp.screen_width + inp.image_width ≤ inp.screen_width ∧
      i / inp.screen_width + inp.image_height ≤ inp.screen_height ∧
      ∀ r, r < inp.image_height → ∀ c, c < inp.image_width →
        PixelMatches inp (r * inp.image_width + c)
          ((i / inp.screen_width + r) * inp.screen_width + (i % inp.screen_width + c)) := by
  obtain ⟨_, hf, hm, _⟩ := (search_eq_some_iff inp i htw hth).mp h
  obtain ⟨hfh, hfw⟩ := hf
  refine ⟨by omega, by omega, fun r hr c hc => ?_⟩
  have hk : (i / inp.screen_width + r) * inp.screen_width + (i % inp.screen_width + c)
      = i + r * inp.screen_width + c := by
    have hdm := Nat.div_add_mod i inp.screen_width
    rw [Nat.add_mul, Nat.mul_comm (i / inp.screen_width)]
    omega
  rw [hk]
  exact hm r hr c hc

/-- Witness of C1 on `sampleInput`, where the hit is at index 6. -/
theorem hit_is_sound_witness :
    (0 < sampleInput.image_width ∧ 0 < sampleInput.image_height ∧
      search sampleInput = some 6) ∧
    (6 % sampleInput.screen_width + sampleInput.image_width ≤ sampleInput.screen_width ∧
      6 / sampleInput.screen_width + sampleInput.image_height ≤ sampleInput.screen_height ∧
      ∀ r, r < sampleInput.image_height → ∀ c, c < sampleInput.image_width →
        PixelMatches sampleInput (r * sampleInput.image_width + c)
          ((6 / sampleInput.screen_width + r) * sampleInput.screen_width
            + (6 % sampleInput.screen_width + c))) :=
  ⟨⟨by decide, by decide, by decide⟩,
    hit_is_sound sampleInput 6 (by decide) (by decide) (by decide)⟩

/-- C2 (first in scan order). For a template with at least one pixel: when the
search reports a match at index `i`, no index below `i` is a fitting position
at which the full comparison succeeds, so every fitting position `t` that
matches lies in a later row, or in the same row at the same or a later
column; and an index at which the template fits and matches, with no such
index before it, is the one reported. -/
theorem first_in_scan_order (inp : SearchInput) (htw : 0 < inp.image_width)
    (hth : 0 < inp.image_height) :
    (∀ i, search inp = some i →
      (∀ t, t < i → ¬ (Fits inp t ∧ MatchesAt inp t)) ∧
      (∀ t, Fits inp t → MatchesAt inp t →
        i / inp.screen_width < t / inp.screen_width ∨
          (i / inp.screen_width = t / inp.screen_width ∧
            i % inp.screen_width ≤ t % inp.screen_width))) ∧
    (∀ i, i < inp.screen_width * inp.screen_height → Fits inp i → MatchesAt inp i →
      (∀ t, t < i → ¬ (Fits inp t ∧ MatchesAt inp t)) → search inp = some i) := by
  constructor
  · intro i h
    obtain ⟨_, _, _, hfirst⟩ := (search_eq_some_iff inp i htw hth).mp h
    refine ⟨hfirst, fun t hft hmt => ?_⟩
    have hit : i ≤ t := by
      by_contra hlt
      exact hfirst t (by omega) ⟨hft, hmt⟩
    have hdiv : i / inp.screen_width ≤ t / inp.screen_width := Nat.div_le_div_right hit
    by_cases heq : i / inp.screen_width = t / inp.screen_width
    · right
      refine ⟨heq, ?_⟩
      have h1 := Nat.div_add_mod i inp.screen_width
      have h2 := Nat.div_add_mod t inp.screen_width
      rw [heq] at h1
      omega
    · left; omega
  · intro i hi hf hm hfirst
    exact (search_eq_some_iff inp i htw hth).mpr ⟨hi, hf, hm, hfirst⟩

/-- Witness of C2: the 2x2 template of `sampleInput` occurs only at row 1,
column 2 of the 4x4 surface, and the search reports index 6, that is
`x = 2`, `y = 1`. -/
theorem first_in_scan_order_witness :
    (0 < sampleInput.image_width ∧ 0 < sampleInput.image_height) ∧
    (search sampleInput = some 6 ∧ 6 % sampleInput.screen_width = 2 ∧
      6 / sampleInput.screen_width = 1) ∧
    (∀ t, t < 6 → ¬ (Fits sampleInput t ∧ MatchesAt sampleInput t)) :=
  ⟨⟨by decide, by decide⟩, ⟨by decide, by decide, by decide⟩,
    ((first_in_scan_order sampleInput (by decide) (by decide)).1 6 (by decide)).1⟩

/-- C3 (completeness). For a template with at least one pixel, whatever the
variation (exact scan for 0, variation scan above 0), the search reports
not-found if and only if no surface index `i < screen_width * screen_height`
passes the fit check with every template pixel matching or transparent. -/
theorem not_found_iff (inp : SearchInput) (htw : 0 < inp.image_width)
    (hth : 0 < inp.image_height) :
    search inp = none ↔
      ¬ ∃ i, i < inp.screen_width * inp.screen_height ∧ Fits inp i ∧ MatchesAt inp i := by
  rw [search_eq_scanLoop, scanLoop_eq_none_iff]
  unfold screen_pixel_count
  constructor
  · rintro h ⟨i, hi, hf, hm⟩
    have := h i (Nat.zero_le _) (by omega)
    rw [(candidate_iff inp i htw hth).mpr ⟨hf, hm⟩] at this
    cases this
  · intro h t _ ht
    by_contra hc
    have hc' : candidate inp t = true := by simpa using hc
    exact h ⟨t, by omega, (candidate_iff inp t htw hth).mp hc'⟩

/-- Witness of C3 on `sampleMiss`, whose template occurs nowhere. -/
theorem not_found_iff_witness :
    (0 < sampleMiss.image_width ∧ 0 < sampleMiss.image_height ∧ search sampleMiss = none) ∧
    ¬ ∃ i, i < sampleMiss.screen_width * sampleMiss.screen_height ∧
      Fits sampleMiss i ∧ MatchesAt sampleMiss i :=
  ⟨⟨by decide, by decide, by decide⟩,
    (not_found_iff sampleMiss (by decide) (by decide)).mp (by decide)⟩

/-- C4 (non-fit rejection). Whenever the template is wider than the surface or
taller than the surface, the search reports not-found, whatever the pixels,
the mask, the transparent colour and the variation. -/
theorem non_fit_is_rejected (inp : SearchInput)
    (h : inp.screen_width < inp.image_width ∨ inp.screen_height < inp.image_height) :
    search inp = none := by
  rw [search_eq_scanLoop, scanLoop_eq_none_iff]
  intro t _ _
  by_contra hc
  have hc' : candidate inp t = true := by simpa using hc
  obtain ⟨h1, h2⟩ := candidate_imp_fits inp t hc'
  generalize t / inp.screen_width = q at h1
  generalize t % inp.screen_width = m at h2
  omega

/-- Witness of C4 on `sampleTooWide`. -/
theorem non_fit_is_rejected_witness :
    (sampleTooWide.screen_width < sampleTooWide.image_width ∨
      sampleTooWide.screen_height < sampleTooWide.image_height) ∧
    search sampleTooWide = none :=
  ⟨by decide, non_fit_is_rejected sampleTooWide (by decide)⟩

/-- C5 (identity match). For a template with at least one pixel, if the surface
has the template's dimensions and the template's pixels and the variation is
0, the search reports a match at index 0, that is at offset (0,0); this
holds in particular with no mask and no transparent colour. -/
theorem identity_match (inp : SearchInput) (htw : 0 < inp.image_width)
    (hth : 0 < inp.image_height) (hw : inp.screen_width = inp.image_width)
    (hh : inp.screen_height = inp.image_height) (hp : inp.screen_pixel = inp.image_pixel)
    (hv : inp.aVariation = 0) (_hmask : inp.image_mask = none)
    (_htc : inp.trans_color = CLR_NONE) :
    search inp = some 0 := by
  have hnorm : normScreen inp = normImage inp := by
    unfold normScreen normImage screenAfter16 screen_pixel_count image_pixel_count
    rw [hw, hh, hp, hv]
    simp
  rw [search_eq_some_iff inp 0 htw hth]
  refine ⟨?_, ?_, ?_, fun t ht => absurd ht (Nat.not_lt_zero t)⟩
  · rw [hw, hh]; exact Nat.mul_pos htw hth
  · unfold Fits
    rw [hw, hh]
    simp
  · intro r _ c _
    right
    unfold ColourMatches
    rw [if_pos hv, hnorm, hw]
    simp

/-- Witness of C5 on `sampleCopy`. -/
theorem identity_match_witness :
    (0 < sampleCopy.image_width ∧ 0 < sampleCopy.image_height ∧
      sampleCopy.screen_width = sampleCopy.image_width ∧
      sampleCopy.screen_height = sampleCopy.image_height ∧
      sampleCopy.screen_pixel = sampleCopy.image_pixel ∧ sampleCopy.aVariation = 0 ∧
      sampleCopy.image_mask = none ∧ sampleCopy.trans_color = CLR_NONE) ∧
    search sampleCopy = some 0 :=
  ⟨⟨by decide, by decide, by decide, by decide, by decide, by decide, by decide, by decide⟩,
    identity_match sampleCopy (by decide) (by decide) (by decide) (by decide) (by decide)
      (by decide) (by decide) (by decide)⟩


theorem land_low24 (p : Nat) : p &&& 0x00FFFFFF = p % 2 ^ 24 :=
  Nat.and_pow_two_sub_one_eq_mod p 24

theorem GetRValue_land (p : Nat) : GetRValue (p &&& 0x00FFFFFF) = GetRValue p := by
  unfold GetRValue
  rw [land_low24]
  omega

theorem GetGValue_land (p : Nat) : GetGValue (p &&& 0x00FFFFFF) = GetGValue p := by
  unfold GetGValue
  rw [land_low24, Nat.shiftRight_eq_div_pow, Nat.shiftRight_eq_div_pow]
  omega

theorem GetBValue_land (p : Nat) : GetBValue (p &&& 0x00FFFFFF) = GetBValue p := by
  unfold GetBValue
  rw [land_low24, Nat.shiftRight_eq_div_pow, Nat.shiftRight_eq_div_pow]
  omega

theorem InBand_self (v c : Nat) (hc : c < 256) : InBand v c c := by
  unfold InBand; omega

theorem InBand_mono (v w c s : Nat) (hvw : v ≤ w) (h : InBand v c s) : InBand w c s := by
  unfold InBand at *; omega

/-- The inner loop is monotone in its per-pixel test. -/
theorem matchLoop_mono (ok1 ok2 : Nat → Nat → Bool) (tw sw i : Nat)
    (himp : ∀ j k, ok1 j k = true → ok2 j k = true) (n x y j k : Nat)
    (h : matchLoop ok1 tw sw i n x y j k = true) :
    matchLoop ok2 tw sw i n x y j k = true := by
  induction n generalizing x y j k with
  | zero => simp [matchLoop]
  | succ n ih =>
    unfold matchLoop at h ⊢
    by_cases hp : ok1 j k = true
    · rw [if_pos hp] at h
      rw [if_pos (himp j k hp)]
      by_cases hx : x + 1 < tw
      · rw [if_pos hx] at h ⊢; exact ih _ _ _ _ h
      · rw [if_neg hx] at h ⊢; exact ih _ _ _ _ h
    · rw [if_neg hp] at h; cases h

/-- A success of the candidate test inside the scanned range makes the scan
stop there or earlier. -/
theorem scanLoop_finds_le (candidate : Nat → Bool) (n i r : Nat) (h1 : i ≤ r)
    (h2 : r < i + n) (h3 : candidate r = true) :
    ∃ t, t ≤ r ∧ scanLoop candidate n i = some t := by
  cases hs : scanLoop candidate n i with
  | none =>
    have := (scanLoop_eq_none_iff candidate n i).mp hs r h1 h2
    rw [this] at h3; cases h3
  | some t =>
    refine ⟨t, ?_, rfl⟩
    obtain ⟨_, _, ht, hfirst⟩ := (scanLoop_eq_some_iff candidate n i t).mp hs
    by_contra hlt
    have := hfirst r h1 (by omega)
    rw [this] at h3; cases h3

/-- An exact-mode pixel success on the surface with its high byte cleared is a
variation-mode success on the surface as the variation branch sees it. -/
theorem exactPixel_imp_variationPixel (img scr : List Nat) (mask : Option (List Nat))
    (tc v n j k : Nat)
    (h : exactPixel img (maskPixels 0x00FFFFFF n scr) mask tc j k = true) :
    variationPixel img scr mask tc v j k = true := by
  rw [exactPixel_iff] at h
  rw [variationPixel_iff]
  rcases h with h | h
  · exact Or.inl h
  · right
    rw [getD_maskPixels] at h
    have hch : GetRValue (img.getD j 0) = GetRValue (scr.getD k 0) ∧
        GetGValue (img.getD j 0) = GetGValue (scr.getD k 0) ∧
        GetBValue (img.getD j 0) = GetBValue (scr.getD k 0) := by
      by_cases hk : k < n
      · rw [if_pos hk] at h
        rw [← h, GetRValue_land, GetGValue_land, GetBValue_land]
        exact ⟨rfl, rfl, rfl⟩
      · rw [if_neg hk] at h
        rw [h]
        exact ⟨rfl, rfl, rfl⟩
    rw [hch.1, hch.2.1, hch.2.2]
    exact ⟨InBand_self _ _ (GetRValue_lt _), InBand_self _ _ (GetGValue_lt _),
      InBand_self _ _ (GetBValue_lt _)⟩

theorem variationPixel_mono (img scr : List Nat) (mask : Option (List Nat))
    (tc v w j k : Nat) (hvw : v ≤ w) (h : variationPixel img scr mask tc v j k = true) :
    variationPixel img scr mask tc w j k = true := by
  rw [variationPixel_iff] at h ⊢
  rcases h with h | ⟨h1, h2, h3⟩
  · exact Or.inl h
  · exact Or.inr ⟨InBand_mono _ _ _ _ hvw h1, InBand_mono _ _ _ _ hvw h2,
      InBand_mono _ _ _ _ hvw h3⟩

/-- Widening the variation keeps a successful candidate successful. -/
theorem candidate_mono (inp : SearchInput) (v w i : Nat) (hvw : v < w)
    (h : candidate { inp with aVariation := v } i = true) :
    candidate { inp with aVariation := w } i = true := by
  have hw : ¬ w < 1 := by omega
  unfold candidate at h ⊢
  simp only [if_neg hw]
  unfold variationCandidate
  by_cases hv : v < 1
  · simp only [if_pos hv] at h
    unfold exactCandidate at h
    rw [Bool.and_eq_true, Bool.and_eq_true] at h
    rw [Bool.and_eq_true]
    refine ⟨h.1.2, ?_⟩
    refine matchLoop_mono _ _ _ _ _ (fun j k hjk => ?_) _ _ _ _ _ h.2
    have hscr : normScreen { inp with aVariation := v }
        = maskPixels 0x00FFFFFF (screen_pixel_count inp)
            (normScreen { inp with aVariation := w }) := by
      unfold normScreen
      simp only [if_pos hv, if_neg hw]
      rfl
    rw [hscr] at hjk
    exact exactPixel_imp_variationPixel _ _ _ _ _ _ _ _ hjk
  · simp only [if_neg hv] at h
    unfold variationCandidate at h
    rw [Bool.and_eq_true] at h ⊢
    refine ⟨h.1, ?_⟩
    refine matchLoop_mono _ _ _ _ _ (fun j k hjk => ?_) _ _ _ _ _ h.2
    have hscr : normScreen { inp with aVariation := v }
        = normScreen { inp with aVariation := w } := by
      unfold normScreen
      simp only [if_neg hv, if_neg hw]
      rfl
    rw [hscr] at hjk
    exact variationPixel_mono _ _ _ _ _ _ _ _ (Nat.le_of_lt hvw) hjk

/-- C6 (tolerance monotonicity). For a fixed template, surface, mask,
transparent colour and depth flags, and variations `v < w ≤ 255`, if the
search with variation `v` reports a match at index `i`, then the search with
variation `w` reports a match at some index `t ≤ i`; for `v = 0` this
compares the exact-match scan with the variation scan. -/
theorem tolerance_monotone (inp : SearchInput) (v w i : Nat) (hvw : v < w) (_hw : w ≤ 255)
    (h : search { inp with aVariation := v } = some i) :
    ∃ t, t ≤ i ∧ search { inp with aVariation := w } = some t := by
  rw [search_eq_scanLoop] at h ⊢
  obtain ⟨_, hi, hc, _⟩ := (scanLoop_eq_some_iff _ _ _ _).mp h
  exact scanLoop_finds_le _ _ _ _ (Nat.zero_le _) hi (candidate_mono inp v w i hvw hc)

/-- Witness of C6 on `sampleInput`, from the exact scan to variation 3. -/
theorem tolerance_monotone_witness :
    (0 < 3 ∧ 3 ≤ 255 ∧ search { sampleInput with aVariation := 0 } = some 6) ∧
    ∃ t, t ≤ 6 ∧ search { sampleInput with aVariation := 3 } = some t :=
  ⟨⟨by decide, by decide, by decide⟩,
    tolerance_monotone sampleInput 0 3 6 (by decide) (by decide) (by decide)⟩


/-- Two buffers of the same length whose entries agree under the mask `m`
are equal once masked. -/
theorem map_land_congr (m : Nat) (xs ys : List Nat) (hlen : xs.length = ys.length)
    (h : ∀ k, k < xs.length → xs.getD k 0 &&& m = ys.getD k 0 &&& m) :
    xs.map (fun p => p &&& m) = ys.map (fun p => p &&& m) := by
  induction xs generalizing ys with
  | nil =>
    cases ys with
    | nil => rfl
    | cons y ys => simp at hlen
  | cons x xs ih =>
    cases ys with
    | nil => simp at hlen
    | cons y ys =>
      simp only [List.map_cons, List.cons.injEq]
      refine ⟨by simpa using h 0 (by simp), ih ys (by simpa using hlen) (fun k hk => ?_)⟩
      simpa using h (k + 1) (by simpa using hk)

/-- C8 (depth equalization). When the template or the surface is flagged
16-bit, two surfaces of the same dimensions whose pixels agree in the top
five bits of every colour channel (they differ at most in the low 3 bits of
each channel) give the same search result, for every template, mask,
transparent colour and variation. -/
theorem depth_equalization (inp : SearchInput) (scr2 : List Nat)
    (h16 : either16 inp = true)
    (hlen1 : inp.screen_pixel.length = inp.screen_width * inp.screen_height)
    (hlen2 : scr2.length = inp.screen_width * inp.screen_height)
    (hdiff : ∀ k, k < inp.screen_width * inp.screen_height →
      inp.screen_pixel.getD k 0 &&& 0x00F8F8F8 = scr2.getD k 0 &&& 0x00F8F8F8) :
    search { inp with screen_pixel := scr2 } = search inp := by
  have h16' : either16 { inp with screen_pixel := scr2 } = true := h16
  have hafter : screenAfter16 { inp with screen_pixel := scr2 } = screenAfter16 inp := by
    unfold screenAfter16
    rw [if_pos h16, if_pos h16']
    show maskPixels 0x00F8F8F8 (screen_pixel_count inp) scr2
      = maskPixels 0x00F8F8F8 (screen_pixel_count inp) inp.screen_pixel
    unfold screen_pixel_count
    rw [maskPixels_eq_map _ _ _ (Nat.le_of_eq hlen2),
      maskPixels_eq_map _ _ _ (Nat.le_of_eq hlen1)]
    refine (map_land_congr _ _ _ (by rw [hlen1, hlen2]) (fun k hk => ?_)).symm
    exact hdiff k (by rw [← hlen1]; exact hk)
  have hscreen : normScreen { inp with screen_pixel := scr2 } = normScreen inp := by
    unfold normScreen
    rw [hafter]
    rfl
  unfold search
  rw [hscreen]
  rfl

/-- Witness of C8: the surface of `sampleInput`, flagged 16-bit, and the same
surface with the low 3 bits of every channel set. -/
theorem depth_equalization_witness :
    search { sampleInput with
        screen_is_16bit := true
        screen_pixel := sampleInput.screen_pixel.map (fun p => p ||| 0x070707) }
      = search { sampleInput with screen_is_16bit := true } :=
  depth_equalization { sampleInput with screen_is_16bit := true }
    (sampleInput.screen_pixel.map (fun p => p ||| 0x070707))
    (by decide) (by decide) (by decide) (by decide)

/-- C9 (normalisation rule). When neither buffer is 16-bit every template pixel
is its original value AND `0x00FFFFFF`; when either buffer is 16-bit every
template pixel and every surface pixel is its original value AND
`0x00F8F8F8`, and a configured transparent colour (one that is not
`CLR_NONE`) is its original value AND `0x00F8F8F8`; pixels keep their
positions and both buffers keep their lengths. -/
theorem normalisation_rule (inp : SearchInput) :
    (either16 inp = false →
      ∀ j, j < inp.image_width * inp.image_height →
        (normImage inp).getD j 0 = inp.image_pixel.getD j 0 &&& 0x00FFFFFF) ∧
    (either16 inp = true →
      (∀ j, j < inp.image_width * inp.image_height →
        (normImage inp).getD j 0 = inp.image_pixel.getD j 0 &&& 0x00F8F8F8) ∧
      (∀ k, k < inp.screen_width * inp.screen_height →
        (normScreen inp).getD k 0 = inp.screen_pixel.getD k 0 &&& 0x00F8F8F8) ∧
      (inp.trans_color ≠ CLR_NONE →
        normTransColor inp = inp.trans_color &&& 0x00F8F8F8)) ∧
    (normImage inp).length = inp.image_pixel.length ∧
    (normScreen inp).length = inp.screen_pixel.length := by
  have hland : ∀ p : Nat, p &&& 0x00F8F8F8 &&& 0x00FFFFFF = p &&& 0x00F8F8F8 := by
    intro p
    rw [Nat.land_assoc]
    rfl
  refine ⟨fun h j hj => ?_, fun h => ⟨fun j hj => ?_, fun k hk => ?_, fun htc => ?_⟩, ?_, ?_⟩
  · unfold normImage image_pixel_count
    rw [h, getD_maskPixels, if_pos hj]
    simp
  · unfold normImage image_pixel_count
    rw [h, getD_maskPixels, if_pos hj, if_pos rfl, getD_maskPixels, if_pos hj, hland]
  · unfold normScreen screenAfter16 screen_pixel_count
    rw [h, if_pos rfl]
    by_cases hv : inp.aVariation < 1
    · rw [if_pos hv, getD_maskPixels, if_pos hk, getD_maskPixels, if_pos hk, hland]
    · rw [if_neg hv, getD_maskPixels, if_pos hk]
  · unfold normTransColor
    rw [h, if_pos rfl, if_pos htc]
  · unfold normImage
    rw [length_maskPixels]
    split
    · rw [length_maskPixels]
    · rfl
  · unfold normScreen screenAfter16
    split <;> split <;> simp only [length_maskPixels]

/-- Witness of C9 on `sampleInput` flagged 16-bit with transparent colour `0x0F0F0F`. -/
theorem normalisation_rule_witness :
    either16 { sampleInput with image_is_16bit := true, trans_color := 0x0F0F0F } = true ∧
    normImage { sampleInput with image_is_16bit := true, trans_color := 0x0F0F0F }
      = [0x000000, 0x000000, 0x000808, 0x080808] ∧
    normTransColor { sampleInput with image_is_16bit := true, trans_color := 0x0F0F0F }
      = 0x0F0F0F &&& 0x00F8F8F8 :=
  ⟨by decide, by decide,
    ((normalisation_rule
      { sampleInput with image_is_16bit := true, trans_color := 0x0F0F0F }).2.1
        (by decide)).2.2 (by decide)⟩


/-! ## The walk of the inner loop -/

/-- The inner loop, entered at template offset `j` in the state of the walk,
tests exactly the pairs `(j + m, k)` with `k` the walk's index at `j + m`. -/
theorem matchLoop_reads (pixelOk : Nat → Nat → Bool) (tw sw i n j : Nat) :
    matchLoop pixelOk tw sw i n (walkAt tw sw i j).x (walkAt tw sw i j).y j
        (walkAt tw sw i j).k = true ↔
      ∀ m, m < n → pixelOk (j + m) (walkAt tw sw i (j + m)).k = true := by
  induction n generalizing j with
  | zero => simp [matchLoop]
  | succ n ih =>
    have hnext : matchLoop pixelOk tw sw i n (walkAt tw sw i (j + 1)).x
        (walkAt tw sw i (j + 1)).y (j + 1) (walkAt tw sw i (j + 1)).k
        = (if (walkAt tw sw i j).x + 1 < tw then
            matchLoop pixelOk tw sw i n ((walkAt tw sw i j).x + 1) (walkAt tw sw i j).y (j + 1)
              ((walkAt tw sw i j).k + 1)
          else
            matchLoop pixelOk tw sw i n 0 ((walkAt tw sw i j).y + 1) (j + 1)
              (i + ((walkAt tw sw i j).y + 1) * sw)) := by
      show matchLoop pixelOk tw sw i n (walkStep tw sw i (walkAt tw sw i j)).x
        (walkStep tw sw i (walkAt tw sw i j)).y (j + 1)
        (walkStep tw sw i (walkAt tw sw i j)).k = _
      unfold walkStep
      split <;> rfl
    unfold matchLoop
    rw [← hnext]
    by_cases hp : pixelOk j (walkAt tw sw i j).k = true
    · rw [if_pos hp, ih (j + 1)]
      constructor
      · intro h m hm
        cases m with
        | zero => exact hp
        | succ m =>
          have := h m (by omega)
          rwa [show j + 1 + m = j + (m + 1) by omega] at this
      · intro h m hm
        have := h (m + 1) (by omega)
        rwa [show j + (m + 1) = j + 1 + m by omega] at this
    · rw [if_neg hp]
      constructor
      · intro h; cases h
      · intro h
        exact absurd (h 0 (Nat.succ_pos n)) hp

/-- Closed form of the walk for a template of positive width. -/
theorem walkAt_eq (tw sw i j : Nat) (htw : 0 < tw) :
    walkAt tw sw i j = { x := j % tw, y := j / tw, k := i + (j / tw) * sw + j % tw } := by
  induction j with
  | zero => simp [walkAt]
  | succ j ih =>
    have hdm : tw * (j / tw) + j % tw = j := Nat.div_add_mod j tw
    have hlt : j % tw < tw := Nat.mod_lt j htw
    show walkStep tw sw i (walkAt tw sw i j) = _
    rw [ih]
    unfold walkStep
    by_cases hx : j % tw + 1 < tw
    · have hj1 : j + 1 = tw * (j / tw) + (j % tw + 1) := by omega
      have hmod : (j + 1) % tw = j % tw + 1 := by
        rw [hj1, Nat.mul_add_mod, Nat.mod_eq_of_lt hx]
      have hdiv : (j + 1) / tw = j / tw := by
        rw [hj1, Nat.mul_add_div htw, Nat.div_eq_of_lt hx, Nat.add_zero]
      simp only [if_pos hx, hmod, hdiv]
      rfl
    · have hj1 : j + 1 = tw * (j / tw + 1) := by
        rw [Nat.mul_add, Nat.mul_one]; omega
      have hmod : (j + 1) % tw = 0 := by rw [hj1, Nat.mul_mod_right]
      have hdiv : (j + 1) / tw = j / tw + 1 := by
        rw [hj1, Nat.mul_div_cancel_left _ htw]
      simp only [if_neg hx, hmod, hdiv, Nat.add_zero]

/-- C11 (no wraparound, no out-of-range read). The inner loop reads the
surface only at the indices `k` of its walk; for a candidate index `i` that
passes the fit check and a template offset `j < tw * th`, that index is
`i + (j / tw) * sw + j % tw`, it is below `sw * sh`, and it lies in surface
row `i / sw + j / tw` at column `i % sw + j % tw`, which is below `sw`: a
template row does not spill into the next surface row. -/
theorem no_wraparound (tw th sw sh i j : Nat) (hfh : th ≤ sh - i / sw)
    (hfw : tw ≤ sw - i % sw) (hj : j < tw * th) :
    (∀ pixelOk : Nat → Nat → Bool,
      matchLoop pixelOk tw sw i (tw * th) 0 0 0 i = true ↔
        ∀ m, m < tw * th → pixelOk m (walkAt tw sw i m).k = true) ∧
    (walkAt tw sw i j).k = i + (j / tw) * sw + j % tw ∧
    (walkAt tw sw i j).k < sw * sh ∧
    (walkAt tw sw i j).k / sw = i / sw + j / tw ∧
    (walkAt tw sw i j).k % sw = i % sw + j % tw ∧
    i % sw + j % tw < sw := by
  have htw : 0 < tw := Nat.pos_of_ne_zero (fun h => by rw [h, Nat.zero_mul] at hj; omega)
  have hr : j / tw < th := Nat.div_lt_of_lt_mul hj
  have hc : j % tw < tw := Nat.mod_lt j htw
  have hdm : sw * (i / sw) + i % sw = i := Nat.div_add_mod i sw
  have hcol : i % sw + j % tw < sw := by omega
  have hsw : 0 < sw := by omega
  have hrow : i / sw + j / tw < sh := by
    generalize i / sw = q at hfh
    generalize j / tw = r at hr
    omega
  have hk : (walkAt tw sw i j).k = i + (j / tw) * sw + j % tw := by
    rw [walkAt_eq tw sw i j htw]
  have hk' : i + (j / tw) * sw + j % tw = sw * (i / sw + j / tw) + (i % sw + j % tw) := by
    rw [Nat.mul_add, Nat.mul_comm sw (j / tw)]
    omega
  refine ⟨fun pixelOk => ?_, hk, ?_, ?_, ?_, hcol⟩
  · have := matchLoop_reads pixelOk tw sw i (tw * th) 0
    simpa [walkAt] using this
  · rw [hk, hk']
    calc sw * (i / sw + j / tw) + (i % sw + j % tw)
        < sw * (i / sw + j / tw) + sw := by omega
      _ = sw * (i / sw + j / tw + 1) := by rw [Nat.mul_add sw _ 1, Nat.mul_one]
      _ ≤ sw * sh := Nat.mul_le_mul_left sw hrow
  · rw [hk, hk', Nat.mul_add_div hsw, Nat.div_eq_of_lt hcol, Nat.add_zero]
  · rw [hk, hk', Nat.mul_add_mod, Nat.mod_eq_of_lt hcol]

/-- Witness of C11: candidate 6 of a 4x4 surface, last offset of a 2x2 template. -/
theorem no_wraparound_witness :
    (2 ≤ 4 - 6 / 4 ∧ 2 ≤ 4 - 6 % 4 ∧ 3 < 2 * 2) ∧
    (walkAt 2 4 6 3).k = 11 ∧ (walkAt 2 4 6 3).k / 4 = 6 / 4 + 3 / 2 ∧
    (walkAt 2 4 6 3).k % 4 = 6 % 4 + 3 % 2 :=
  ⟨⟨by decide, by decide, by decide⟩,
    (no_wraparound 2 2 4 4 6 3 (by decide) (by decide) (by decide)).2.1,
    by decide, by decide⟩

/-- C16 (the first-pixel optimisation preserves the result). For a template
with at least one pixel and any surface, mask and transparent colour, the
exact-match scan with its first-pixel test returns the same result
(found or not, and the same index) as the scan in which the fit check alone
guards the full comparison. -/
theorem first_pixel_test_preserves_result (image_pixel screen_pixel : List Nat)
    (image_mask : Option (List Nat))
    (trans_color image_width image_height screen_width screen_height : Nat)
    (htw : 0 < image_width) (hth : 0 < image_height) :
    scanExact image_pixel screen_pixel image_mask trans_color
        image_width image_height screen_width screen_height
      = scanExactNoFirstPixel image_pixel screen_pixel image_mask trans_color
        image_width image_height screen_width screen_height := by
  unfold scanExact scanExactNoFirstPixel
  congr 1
  funext i
  unfold exactCandidate exactCandidateNoFirstPixel
  obtain ⟨n, hn⟩ : ∃ n, image_width * image_height = n + 1 :=
    ⟨image_width * image_height - 1, by have := Nat.mul_pos htw hth; omega⟩
  rw [hn]
  unfold matchLoop
  cases exactPixel image_pixel screen_pixel image_mask trans_color 0 i <;>
    cases fitsAt image_width image_height screen_width screen_height i <;> simp

/-- Witness of C16 on the buffers of `sampleInput`. -/
theorem first_pixel_test_preserves_result_witness :
    scanExact sampleInput.image_pixel sampleInput.screen_pixel none CLR_NONE 2 2 4 4
      = scanExactNoFirstPixel sampleInput.image_pixel sampleInput.screen_pixel none CLR_NONE
        2 2 4 4 :=
  first_pixel_test_preserves_result sampleInput.image_pixel sampleInput.screen_pixel none
    CLR_NONE 2 2 4 4 (by decide) (by decide)

/-- One channel of `SET_COLOR_RANGE`: the stored bounds are the unwrapped
`max(0, c - v)` and `min(255, c + v)`. -/
theorem channel_bounds (v c : Nat) (hv : v ≤ 255) (hc : c ≤ 255) :
    (((if v > c then 0 else c - v) % 256 : Nat) : Int) = max 0 ((c : Int) - (v : Int)) ∧
      (((if v > 0xFF - c then 0xFF else c + v) % 256 : Nat) : Int)
        = min 255 ((c : Int) + (v : Int)) := by
  by_cases h1 : v > c <;> by_cases h2 : v > 0xFF - c <;>
    simp only [h1, h2, if_true, if_false] <;> omega

/-- A channel in the band is one whose distance from the template channel is
at most the variation. -/
theorem InBand_iff_abs (v c s : Nat) (hs : s ≤ 255) :
    InBand v c s ↔ |(s : Int) - (c : Int)| ≤ (v : Int) := by
  unfold InBand
  rw [abs_le]
  omega

/-- C17 (band computation). For channel values `r`, `g`, `b` in 0..255 and a
variation `v` in 0..255, `SET_COLOR_RANGE` stores, for each channel `c`,
`low = max(0, c - v)` and `high = min(255, c + v)`: the values fit in a
`BYTE`, nothing wraps.  A surface channel `s` in 0..255 therefore passes
`s >= low && s <= high` exactly when `|s - c| <= v`. -/
theorem band_computation (v r g b : Nat) (hv : v ≤ 255) (hr : r ≤ 255) (hg : g ≤ 255)
    (hb : b ≤ 255) :
    (((SET_COLOR_RANGE v r g b).red_low : Int) = max 0 ((r : Int) - (v : Int)) ∧
      ((SET_COLOR_RANGE v r g b).red_high : Int) = min 255 ((r : Int) + (v : Int)) ∧
      ((SET_COLOR_RANGE v r g b).green_low : Int) = max 0 ((g : Int) - (v : Int)) ∧
      ((SET_COLOR_RANGE v r g b).green_high : Int) = min 255 ((g : Int) + (v : Int)) ∧
      ((SET_COLOR_RANGE v r g b).blue_low : Int) = max 0 ((b : Int) - (v : Int)) ∧
      ((SET_COLOR_RANGE v r g b).blue_high : Int) = min 255 ((b : Int) + (v : Int))) ∧
    (∀ s, s ≤ 255 →
      (((s ≥ (SET_COLOR_RANGE v r g b).red_low ∧ s ≤ (SET_COLOR_RANGE v r g b).red_high) ↔
          |(s : Int) - (r : Int)| ≤ (v : Int)) ∧
        ((s ≥ (SET_COLOR_RANGE v r g b).green_low ∧
            s ≤ (SET_COLOR_RANGE v r g b).green_high) ↔
          |(s : Int) - (g : Int)| ≤ (v : Int)) ∧
        ((s ≥ (SET_COLOR_RANGE v r g b).blue_low ∧ s ≤ (SET_COLOR_RANGE v r g b).blue_high) ↔
          |(s : Int) - (b : Int)| ≤ (v : Int)))) := by
  refine ⟨⟨(channel_bounds v r hv hr).1, (channel_bounds v r hv hr).2,
    (channel_bounds v g hv hg).1, (channel_bounds v g hv hg).2,
    (channel_bounds v b hv hb).1, (channel_bounds v b hv hb).2⟩, fun s hs => ⟨?_, ?_, ?_⟩⟩
  · rw [← InBand_iff_abs v r s hs]
    exact channel_test_iff v r s (by omega) (by omega)
  · rw [← InBand_iff_abs v g s hs]
    exact channel_test_iff v g s (by omega) (by omega)
  · rw [← InBand_iff_abs v b s hs]
    exact channel_test_iff v b s (by omega) (by omega)

/-- Witness of C17: variation 10 around the channels 5, 250 and 100. -/
theorem band_computation_witness :
    (10 ≤ 255 ∧ 5 ≤ 255 ∧ 250 ≤ 255 ∧ 100 ≤ 255) ∧
    SET_COLOR_RANGE 10 5 250 100
      = { red_low := 0, red_high := 15, green_low := 240, green_high := 255,
          blue_low := 90, blue_high := 110 } ∧
    ((SET_COLOR_RANGE 10 5 250 100).red_low : Int) = max 0 ((5 : Int) - 10) :=
  ⟨⟨by decide, by decide, by decide, by decide⟩, by decide,
    (band_computation 10 5 250 100 (by decide) (by decide) (by decide) (by decide)).1.1⟩

/-- A template pixel inside the template keeps only its low 24 bits. -/
theorem normImage_lt (inp : SearchInput) (j : Nat)
    (hj : j < inp.image_width * inp.image_height) :
    (normImage inp).getD j 0 < 2 ^ 24 := by
  unfold normImage image_pixel_count
  rw [getD_maskPixels, if_pos hj, land_low24]
  exact Nat.mod_lt _ (by decide)

/-- C18 (no accidental transparency). When no transparent colour is configured
(`trans_color` is `CLR_NONE`), the transparent colour stays `CLR_NONE`
whether or not the 16-bit normalisation runs, and no template pixel equals
it: the comparison `image_pixel[j] == trans_color` is false for every
template offset, so a template pixel is transparent only through the mask. -/
theorem no_accidental_transparency (inp : SearchInput) (htc : inp.trans_color = CLR_NONE)
    (j : Nat) (hj : j < inp.image_width * inp.image_height) :
    normTransColor inp = CLR_NONE ∧
      ((normImage inp).getD j 0 == normTransColor inp) = false ∧
      (Transparent inp j ↔ maskSet inp.image_mask j = true) := by
  have hn : normTransColor inp = CLR_NONE := by
    unfold normTransColor
    rw [htc]
    simp
  have hlt := normImage_lt inp j hj
  have hne : (normImage inp).getD j 0 ≠ normTransColor inp := by
    rw [hn]
    unfold CLR_NONE
    omega
  refine ⟨hn, by simpa using hne, ?_⟩
  unfold Transparent
  constructor
  · rintro (h | h)
    · exact h
    · exact absurd h hne
  · exact Or.inl

/-- Witness of C18 on `sampleInput`, plain and flagged 16-bit. -/
theorem no_accidental_transparency_witness :
    (sampleInput.trans_color = CLR_NONE ∧
      3 < sampleInput.image_width * sampleInput.image_height) ∧
    (normTransColor { sampleInput with image_is_16bit := true } = CLR_NONE ∧
      ((normImage { sampleInput with image_is_16bit := true }).getD 3 0
        == normTransColor { sampleInput with image_is_16bit := true }) = false ∧
      (Transparent { sampleInput with image_is_16bit := true } 3 ↔
        maskSet sampleInput.image_mask 3 = true)) :=
  ⟨⟨by decide, by decide⟩,
    no_accidental_transparency { sampleInput with image_is_16bit := true } (by decide) 3
      (by decide)⟩

theorem InBand_of_DiffersBy (v c s : Nat) (hs : s < 256) (h : DiffersBy v c s) :
    InBand v c s := by
  unfold DiffersBy at h
  unfold InBand
  omega

theorem not_InBand_of_DiffersBy (v c s : Nat) (hv : 1 ≤ v) (h : DiffersBy v c s) :
    ¬ InBand (v - 1) c s := by
  unfold DiffersBy at h
  unfold InBand
  omega

theorem normTransColor_none (inp : SearchInput) (htc : inp.trans_color = CLR_NONE) :
    normTransColor inp = CLR_NONE := by
  unfold normTransColor
  rw [htc]
  simp

/-- Without the 16-bit normalisation a template pixel inside the template is
the original pixel with its high byte cleared. -/
theorem normImage_getD_plain (inp : SearchInput) (h16 : either16 inp = false) (j : Nat)
    (hj : j < inp.image_width * inp.image_height) :
    (normImage inp).getD j 0 = inp.image_pixel.getD j 0 &&& 0x00FFFFFF := by
  unfold normImage image_pixel_count
  rw [h16, getD_maskPixels, if_pos hj]
  simp

/-- Without the 16-bit normalisation the variation branch scans the surface as captured. -/
theorem normScreen_plain_variation (inp : SearchInput) (h16 : either16 inp = false)
    (hv : ¬ inp.aVariation < 1) : normScreen inp = inp.screen_pixel := by
  unfold normScreen screenAfter16
  rw [h16, if_neg hv]
  simp

/-- C12 (exact-variation scenario). With no mask, no transparent colour and
neither buffer 16-bit, for a variation `v` in 1..255 and a template with at
least one pixel: if the surface block at column `x`, row `y` differs from
the template by exactly `v` in every colour channel of every pixel, and no
other fitting position matches within `v`, then the search with variation
`v` reports a match at `(x, y)`, index `y * screen_width + x`, and the
search with variation `v - 1` reports not-found. -/
theorem exact_variation_scenario (inp : SearchInput) (v x y : Nat)
    (hmask : inp.image_mask = none) (htc : inp.trans_color = CLR_NONE)
    (h16 : either16 inp = false) (hv1 : 1 ≤ v) (_hv2 : v ≤ 255)
    (htw : 0 < inp.image_width) (hth : 0 < inp.image_height)
    (hx : x + inp.image_width ≤ inp.screen_width)
    (hy : y + inp.image_height ≤ inp.screen_height)
    (hdiff : ∀ r, r < inp.image_height → ∀ c, c < inp.image_width →
      DiffersBy v (GetRValue (inp.image_pixel.getD (r * inp.image_width + c) 0))
          (GetRValue (inp.screen_pixel.getD (y * inp.screen_width + x
            + r * inp.screen_width + c) 0)) ∧
        DiffersBy v (GetGValue (inp.image_pixel.getD (r * inp.image_width + c) 0))
          (GetGValue (inp.screen_pixel.getD (y * inp.screen_width + x
            + r * inp.screen_width + c) 0)) ∧
        DiffersBy v (GetBValue (inp.image_pixel.getD (r * inp.image_width + c) 0))
          (GetBValue (inp.screen_pixel.getD (y * inp.screen_width + x
            + r * inp.screen_width + c) 0)))
    (hother : ∀ t, t < inp.screen_width * inp.screen_height →
      t ≠ y * inp.screen_width + x →
      ¬ (Fits { inp with aVariation := v } t ∧ MatchesAt { inp with aVariation := v } t)) :
    search { inp with aVariation := v } = some (y * inp.screen_width + x) ∧
      search { inp with aVariation := v - 1 } = none := by
  have hxs : x < inp.screen_width := by omega
  have hdiv : (y * inp.screen_width + x) / inp.screen_width = y := by
    rw [Nat.mul_comm, Nat.mul_add_div (by omega), Nat.div_eq_of_lt hxs, Nat.add_zero]
  have hmod : (y * inp.screen_width + x) % inp.screen_width = x := by
    rw [Nat.mul_comm, Nat.mul_add_mod, Nat.mod_eq_of_lt hxs]
  have hi0 : y * inp.screen_width + x < inp.screen_width * inp.screen_height := by
    calc y * inp.screen_width + x < y * inp.screen_width + inp.screen_width := by omega
      _ = inp.screen_width * (y + 1) := by rw [Nat.mul_add, Nat.mul_one, Nat.mul_comm]
      _ ≤ inp.screen_width * inp.screen_height := Nat.mul_le_mul_left _ (by omega)
  have hcount : ∀ r, r < inp.image_height → ∀ c, c < inp.image_width →
      r * inp.image_width + c < inp.image_width * inp.image_height := by
    intro r hr c hc
    calc r * inp.image_width + c < r * inp.image_width + inp.image_width := by omega
      _ = inp.image_width * (r + 1) := by rw [Nat.mul_add, Nat.mul_one, Nat.mul_comm]
      _ ≤ inp.image_width * inp.image_height := Nat.mul_le_mul_left _ hr
  have himg : ∀ (w : Nat) (j : Nat), j < inp.image_width * inp.image_height →
      (normImage { inp with aVariation := w }).getD j 0
        = inp.image_pixel.getD j 0 &&& 0x00FFFFFF :=
    fun w j hj => normImage_getD_plain { inp with aVariation := w } h16 j hj
  have hfit : ∀ w, Fits { inp with aVariation := w } (y * inp.screen_width + x) := by
    intro w
    show inp.image_height ≤ inp.screen_height - (y * inp.screen_width + x) / inp.screen_width ∧
      inp.image_width ≤ inp.screen_width - (y * inp.screen_width + x) % inp.screen_width
    rw [hdiv, hmod]
    omega
  constructor
  · rw [search_eq_some_iff { inp with aVariation := v } _ htw hth]
    refine ⟨hi0, hfit v, fun r hr c hc => Or.inr ?_, fun t ht => hother t (by omega) (by omega)⟩
    obtain ⟨dr, dg, db⟩ := hdiff r hr c hc
    have hscr : normScreen { inp with aVariation := v } = inp.screen_pixel :=
      normScreen_plain_variation { inp with aVariation := v } h16 (show ¬ v < 1 by omega)
    unfold ColourMatches
    rw [if_neg (show ¬ v = 0 by omega), hscr, himg v _ (hcount r hr c hc),
      GetRValue_land, GetGValue_land, GetBValue_land]
    exact ⟨InBand_of_DiffersBy _ _ _ (GetRValue_lt _) dr,
      InBand_of_DiffersBy _ _ _ (GetGValue_lt _) dg,
      InBand_of_DiffersBy _ _ _ (GetBValue_lt _) db⟩
  · rw [search_eq_none_iff { inp with aVariation := v - 1 } htw hth]
    rintro t ht ⟨hf, hm⟩
    by_cases hti : t = y * inp.screen_width + x
    · subst hti
      have h00 := hm 0 hth 0 htw
      obtain ⟨dr, _, _⟩ := hdiff 0 hth 0 htw
      simp only [Nat.zero_mul, Nat.zero_add, Nat.add_zero] at h00 dr
      have hj0 : 0 < inp.image_width * inp.image_height := Nat.mul_pos htw hth
      rcases h00 with htr | hcm
      · rcases htr with hms | heq
        · rw [show ({ inp with aVariation := v - 1 } : SearchInput).image_mask = none
            from hmask] at hms
          simp [maskSet] at hms
        · have hlt := normImage_lt { inp with aVariation := v - 1 } 0 hj0
          rw [heq, normTransColor_none _ (show ({ inp with aVariation := v - 1 }
            : SearchInput).trans_color = CLR_NONE from htc)] at hlt
          unfold CLR_NONE at hlt
          omega
      · unfold ColourMatches at hcm
        by_cases hv0 : v - 1 = 0
        · rw [if_pos hv0, himg _ 0 hj0] at hcm
          have hscr : (normScreen { inp with aVariation := v - 1 }).getD
              (y * inp.screen_width + x) 0
              = inp.screen_pixel.getD (y * inp.screen_width + x) 0 &&& 0x00FFFFFF := by
            unfold normScreen screenAfter16
            rw [show either16 { inp with aVariation := v - 1 } = false from h16]
            simp only [if_pos (show v - 1 < 1 by omega)]
            rw [getD_maskPixels, if_pos (show y * inp.screen_width + x
              < screen_pixel_count { inp with aVariation := v - 1 } from hi0)]
            rfl
          rw [hscr] at hcm
          have hR := congrArg GetRValue hcm
          rw [GetRValue_land, GetRValue_land] at hR
          unfold DiffersBy at dr
          omega
        · have hscr : normScreen { inp with aVariation := v - 1 } = inp.screen_pixel :=
            normScreen_plain_variation { inp with aVariation := v - 1 } h16
              (show ¬ v - 1 < 1 by omega)
          rw [if_neg hv0, himg _ 0 hj0, GetRValue_land, hscr] at hcm
          exact not_InBand_of_DiffersBy v _ _ hv1 dr hcm.1
    · have hc := (candidate_iff { inp with aVariation := v - 1 } t htw hth).mpr ⟨hf, hm⟩
      have hc' := candidate_mono inp (v - 1) v t (by omega) hc
      exact hother t ht hti ((candidate_iff { inp with aVariation := v } t htw hth).mp hc')

/-- Witness of C12 on `sampleShifted`: variation 2 finds the block at index 6
(`x = 2`, `y = 1`), variation 1 finds nothing. -/
theorem exact_variation_scenario_witness :
    search { sampleShifted with aVariation := 2 } = some (1 * sampleShifted.screen_width + 2) ∧
      search { sampleShifted with aVariation := 2 - 1 } = none :=
  exact_variation_scenario sampleShifted 2 2 1 (by decide) (by decide) (by decide) (by decide)
    (by decide) (by decide) (by decide) (by decide) (by decide) (by decide) (by decide)

theorem wrapInt32_of_IsInt32 (z : Int) (h : IsInt32 z) : wrapInt32 z = z := by
  unfold IsInt32 at h
  unfold wrapInt32
  omega

/-- C13 (result encoding). The text returned is `"0"` when no match is found;
when a match is found at surface index `i` it is exactly `"1|X|Y|W|H"` in
decimal with `X = aLeft + i % screen_width`, `Y = aTop + i / screen_width`
(both being values an `int` holds), `W` the template width and `H` the
template height. -/
theorem result_encoding (aLeft aTop : Int) (inp : SearchInput) (g : Globals) :
    (search inp = none → ImageSearchText aLeft aTop inp g = "0") ∧
    (∀ i, search inp = some i →
      IsInt32 (aLeft + ((i % inp.screen_width : Nat) : Int)) →
      IsInt32 (aTop + ((i / inp.screen_width : Nat) : Int)) →
      ImageSearchText aLeft aTop inp g =
        "1|" ++ toString (aLeft + ((i % inp.screen_width : Nat) : Int)) ++ "|"
          ++ toString (aTop + ((i / inp.screen_width : Nat) : Int)) ++ "|"
          ++ toString (inp.image_width : Int) ++ "|" ++ toString (inp.image_height : Int)) := by
  constructor
  · intro h
    unfold ImageSearchText ImageSearchEnd
    rw [h]
    rfl
  · intro i h hx hy
    unfold ImageSearchText ImageSearchEnd
    rw [h]
    simp only [textAt, formatAnswer, rect_origin, Int.sub_zero]
    rw [wrapInt32_of_IsInt32 _ hx, wrapInt32_of_IsInt32 _ hx, wrapInt32_of_IsInt32 _ hy,
      wrapInt32_of_IsInt32 _ hy]

/-- Witness of C13: `sampleInput` captured at `aLeft = 100`, `aTop = 50` gives
`"1|102|51|2|2"`, and `sampleMiss` gives `"0"`. -/
theorem result_encoding_witness :
    (search sampleInput = some 6 ∧ search sampleMiss = none) ∧
    ImageSearchText 100 50 sampleInput { answer := "" } = "1|102|51|2|2" ∧
    ImageSearchText 100 50 sampleMiss { answer := "" } = "0" :=
  ⟨⟨by decide, by decide⟩,
    ((result_encoding 100 50 sampleInput { answer := "" }).2 6 (by decide) (by decide)
      (by decide)).trans (by decide),
    (result_encoding 100 50 sampleMiss { answer := "" }).1 (by decide)⟩
/-- Counterexample to C15 as stated: the first call finds the template of
`sampleInput` and returns the buffer `answer`, which then reads `"1|2|1|2|2"`;
after a second call, on `sampleCopy`, the pointer returned by the first call
reads `"1|0|0|2|2"`. -/
theorem later_call_changes_returned_text :
    (ImageSearchEnd 0 0 sampleInput { answer := "" }).1 = Returned.answerBuffer ∧
    textAt (ImageSearchEnd 0 0 sampleInput { answer := "" }).2
      (ImageSearchEnd 0 0 sampleInput { answer := "" }).1 = "1|2|1|2|2" ∧
    textAt (ImageSearchEnd 0 0 sampleCopy (ImageSearchEnd 0 0 sampleInput { answer := "" }).2).2
      (ImageSearchEnd 0 0 sampleInput { answer := "" }).1 = "1|0|0|2|2" := by
  decide

/-- C15, amended. A call of the matcher reads no state that outlives the call:
the text it delivers is the same whatever the globals held before.  It does
write process-wide state: a call that finds a match stores its text in the
global buffer `answer` and returns that buffer, so after two such calls the
pointer returned by the first reads the text of the second; a call that
finds nothing returns the constant `"0"` and leaves `answer` unchanged. -/
theorem answer_buffer_is_shared (aLeft aTop aLeft2 aTop2 : Int) (inp inp2 : SearchInput)
    (g : Globals) :
    (∀ g2 : Globals, ImageSearchText aLeft aTop inp g = ImageSearchText aLeft aTop inp g2) ∧
    (search inp = none → ImageSearchEnd aLeft aTop inp g = (Returned.literalZero, g)) ∧
    (search inp ≠ none → search inp2 ≠ none →
      (ImageSearchEnd aLeft aTop inp g).1 = Returned.answerBuffer ∧
      textAt (ImageSearchEnd aLeft2 aTop2 inp2 (ImageSearchEnd aLeft aTop inp g).2).2
          (ImageSearchEnd aLeft aTop inp g).1
        = ImageSearchText aLeft2 aTop2 inp2 (ImageSearchEnd aLeft aTop inp g).2) := by
  refine ⟨fun g2 => ?_, fun h => ?_, fun h1 h2 => ?_⟩
  · unfold ImageSearchText ImageSearchEnd
    cases search inp <;> rfl
  · unfold ImageSearchEnd
    rw [h]
  · unfold ImageSearchText ImageSearchEnd
    cases hs : search inp with
    | none => exact absurd hs h1
    | some i =>
      cases hs2 : search inp2 with
      | none => exact absurd hs2 h2
      | some i2 => exact ⟨rfl, rfl⟩

/-- Witness of C15, amended: `sampleMiss` leaves the globals as they were, and
after `sampleInput` then `sampleCopy` the first pointer reads the second text. -/
theorem answer_buffer_is_shared_witness :
    (search sampleMiss = none ∧ search sampleInput ≠ none ∧ search sampleCopy ≠ none) ∧
    ImageSearchEnd 0 0 sampleMiss { answer := "kept" }
      = (Returned.literalZero, { answer := "kept" }) ∧
    textAt (ImageSearchEnd 0 0 sampleCopy (ImageSearchEnd 0 0 sampleInput { answer := "" }).2).2
        (ImageSearchEnd 0 0 sampleInput { answer := "" }).1
      = ImageSearchText 0 0 sampleCopy (ImageSearchEnd 0 0 sampleInput { answer := "" }).2 :=
  ⟨⟨by decide, by decide, by decide⟩,
    (answer_buffer_is_shared 0 0 0 0 sampleMiss sampleMiss { answer := "kept" }).2.1 (by decide),
    ((answer_buffer_is_shared 0 0 0 0 sampleInput sampleCopy { answer := "" }).2.2
      (by decide) (by decide)).2⟩

/-! ## Facts about the options syntax -/

theorem length_omit_leading_whitespace (s : List Char) :
    (omit_leading_whitespace s).length ≤ s.length := by
  induction s with
  | nil => simp [omit_leading_whitespace]
  | cons c cs ih =>
    unfold omit_leading_whitespace
    split
    · simp only [List.length_cons]; omega
    · exact Nat.le_refl _

theorem length_StrChrAnyLoop (l s sp : List Char) (h : StrChrAnyLoop l s = some sp) :
    sp.length ≤ s.length := by
  induction s with
  | nil => simp [StrChrAnyLoop] at h
  | cons c cs ih =>
    unfold StrChrAnyLoop at h
    split at h
    · cases h; exact Nat.le_refl _
    · have := ih h
      simp only [List.length_cons]; omega

theorem length_StrChrAny (s l sp : List Char) (h : StrChrAny s l = some sp) :
    sp.length ≤ s.length ∧ 0 < sp.length := by
  unfold StrChrAny at h
  split at h
  · cases h
  · refine ⟨length_StrChrAnyLoop l s sp h, ?_⟩
    clear * - h
    induction s with
    | nil => simp [StrChrAnyLoop] at h
    | cons c cs ih =>
      unfold StrChrAnyLoop at h
      split at h
      · cases h; simp
      · exact ih h

theorem length_applyOption (o : Options) (cp : List Char) :
    (applyOption o cp).2.length ≤ cp.length := by
  unfold applyOption
  split
  · exact Nat.le_refl _
  · split
    · exact Nat.le_refl _
    · split
      · simp only [List.length_drop]; omega
      · split
        · simp only [List.length_drop]; omega
        · exact Nat.le_refl _

/-- An iteration of the options loop leaves a strictly shorter `cp`, counting
the asterisk it started from. -/
theorem length_optionIteration (o o2 : Options) (cp f2 cp2 : List Char)
    (h : optionIteration o cp = some (o2, f2, cp2)) : cp2.length < cp.length := by
  unfold optionIteration at h
  split at h
  · cases h
  · rename_i sp hsp
    cases h
    have h1 := length_StrChrAny _ _ _ hsp
    have h2 := length_applyOption o cp
    have h3 := length_omit_leading_whitespace (sp.drop 1)
    simp only [List.length_drop] at h3
    omega

/-- With more fuel than `cp` has characters the loop ends by itself. -/
theorem optionsLoop_ends (fuel : Nat) (o : Options) (f cp : List Char)
    (h : cp.length < fuel) : optionsLoop fuel o f cp ≠ none := by
  induction fuel generalizing o f cp with
  | zero => omega
  | succ n ih =>
    unfold optionsLoop
    split
    · rename_i hstar
      cases hit : optionIteration o (cp.drop 1) with
      | none => simp
      | some r =>
        obtain ⟨o2, f2, cp2⟩ := r
        have hlen := length_optionIteration o o2 (cp.drop 1) f2 cp2 hit
        simp only [List.length_drop] at hlen
        exact ih o2 f2 cp2 (by omega)
    · simp

/-- The bound used by `parseOptions` is never reached. -/
theorem parseOptions_ends (o : Options) (aImageFile : List Char) :
    parseOptions o aImageFile ≠ none := by
  unfold parseOptions
  exact optionsLoop_ends _ _ _ _
    (Nat.lt_succ_of_le (length_omit_leading_whitespace aImageFile))

theorem _stricmp_eq_zero_iff (a b : List Char) :
    _stricmp a b = 0 ↔ a.map tolower = b.map tolower := by
  unfold _stricmp
  split <;> simp_all

/-- The table lookup sees a name only through its lower-case form. -/
theorem ColorNameToBGR_congr (s t : List Char) (h : s.map tolower = t.map tolower) :
    ColorNameToBGR s = ColorNameToBGR t := by
  have hemp : s.isEmpty = t.isEmpty := by
    cases s <;> cases t <;> simp_all
  unfold ColorNameToBGR _stricmp
  rw [hemp, h]
/-- C19 at the failing input: the name `Gray` is not the word `Default`, yet
`ColorNameToBGR` returns `0x808080` for it, which is the value of
`CLR_DEFAULT` in this file; the same holds for `gray` in any letter case. -/
theorem gray_returns_CLR_DEFAULT :
    (_stricmp "Gray".toList "Default".toList ≠ 0 ∧
      ColorNameToBGR "Gray".toList = CLR_DEFAULT) ∧
    (∀ s : List Char, s.map tolower = "gray".toList → ColorNameToBGR s = CLR_DEFAULT) := by
  refine ⟨by decide, fun s h => ?_⟩
  rw [ColorNameToBGR_congr s "gray".toList (h.trans (by decide))]
  decide
theorem StrChrAnyLoop_append (l s t : List Char) (hs : ∀ c, c ∈ s → l.contains c = false) :
    StrChrAnyLoop l (s ++ t) = StrChrAnyLoop l t := by
  induction s with
  | nil => rfl
  | cons c cs ih =>
    have hc : l.contains c = false := hs c (List.mem_cons_self c cs)
    show (if l.contains c = true then some (c :: (cs ++ t)) else StrChrAnyLoop l (cs ++ t)) = _
    rw [hc, if_neg (by simp)]
    exact ih (fun x hx => hs x (List.mem_cons_of_mem c hx))

/-- The `*Trans` branch isolates the text before the first space or tab, when
that text has at most 31 characters. -/
theorem isolateColorName_append (s rest : List Char) (d : Char)
    (hs : ∀ c, c ∈ s → IS_SPACE_OR_TAB c = false) (hd : IS_SPACE_OR_TAB d = true)
    (hlen : s.length ≤ 31) :
    isolateColorName (s ++ d :: rest) = s := by
  have hcont : ∀ c, " \t".toList.contains c = IS_SPACE_OR_TAB c := by
    intro c
    cases h1 : (c == ' ') <;> cases h2 : (c == '\t') <;>
      simp [IS_SPACE_OR_TAB, List.contains, List.elem, h1, h2]
  have hs' : ∀ c, c ∈ s → " \t".toList.contains c = false := fun c hc => by
    rw [hcont]; exact hs c hc
  unfold isolateColorName strlcpy
  have htake : (s ++ d :: rest).take (32 - 1)
      = s ++ (d :: rest).take (31 - s.length) := by
    rw [show 32 - 1 = 31 from rfl, List.take_append_eq_append_take, List.take_of_length_le hlen]
  rw [htake]
  cases hm : 31 - s.length with
  | zero =>
    simp only [List.take_zero, List.append_nil]
    have hnone : StrChrAny s " \t".toList = none := by
      unfold StrChrAny
      split
      · rfl
      · have := StrChrAnyLoop_append " \t".toList s [] hs'
        rw [List.append_nil] at this
        rw [this]; rfl
    rw [hnone]
  | succ m =>
    simp only [List.take_succ_cons]
    have hsome : StrChrAny (s ++ d :: rest.take m) " \t".toList = some (d :: rest.take m) := by
      unfold StrChrAny
      rw [if_neg (by simp)]
      rw [StrChrAnyLoop_append _ _ _ hs']
      unfold StrChrAnyLoop
      rw [hcont, hd]
      rfl
    rw [hsome]
    simp
theorem applyOption_Trans (o : Options) (x : List Char) :
    applyOption o ("Trans".toList ++ x)
      = ({ o with trans_color := transColorOf (isolateColorName x) }, x) := by
  have hcp : "Trans".toList ++ x = 'T' :: 'r' :: 'a' :: 'n' :: 's' :: x := rfl
  have hd : deref ('T' :: 'r' :: 'a' :: 'n' :: 's' :: x) = 'T' := rfl
  have hi : _strnicmp ('T' :: 'r' :: 'a' :: 'n' :: 's' :: x) "Icon".toList 4
      = _stricmp ['T', 'r', 'a', 'n'] "Icon".toList := rfl
  have ht : _strnicmp ('T' :: 'r' :: 'a' :: 'n' :: 's' :: x) "Trans".toList 5
      = _stricmp ['T', 'r', 'a', 'n', 's'] "Trans".toList := rfl
  have h1 : ¬ toupper (deref ("Trans".toList ++ x)) = 'W' := by
    rw [hcp, hd]; decide
  have h2 : ¬ toupper (deref ("Trans".toList ++ x)) = 'H' := by
    rw [hcp, hd]; decide
  have h3 : ¬ _strnicmp ("Trans".toList ++ x) "Icon".toList 4 = 0 := by
    rw [hcp, hi]; decide
  have h4 : _strnicmp ("Trans".toList ++ x) "Trans".toList 5 = 0 := by
    rw [hcp, ht]; decide
  unfold applyOption
  rw [if_neg h1, if_neg h2, if_neg h3, if_pos h4, hcp]
  rfl

theorem tolower_of_IS_SPACE_OR_TAB (c : Char) (h : IS_SPACE_OR_TAB c = true) :
    tolower c = c := by
  unfold IS_SPACE_OR_TAB at h
  simp only [Bool.or_eq_true, beq_iff_eq] at h
  rcases h with h | h <;> subst h <;> decide

/-- What the table and the conversion give for each of the 16 names as spelled in the table. -/
theorem htmlColours_table :
    ∀ p, p ∈ htmlColours →
      ColorNameToBGR p.1.toList ≠ CLR_NONE ∧
      bgr_to_rgb (ColorNameToBGR p.1.toList) = p.2 ∧
      p.1.toList.length ≤ 31 ∧
      ∀ c, c ∈ p.1.toList.map tolower → IS_SPACE_OR_TAB c = false := by
  decide

/-- C20 (named transparent colours are RGB). For each of the 16 HTML colour
names, written in any letter case, `ColorNameToBGR` finds the name, and the
`*Trans` option sets `trans_color` to `bgr_to_rgb` of the table's entry, which
is the name's standard `0xRRGGBB` value (for example `Red` gives `0xFF0000`,
`Blue` `0x0000FF`, `Yellow` `0xFFFF00`, `Navy` `0x000080`).  A name that the
table does not have (`ColorNameToBGR` answers `CLR_NONE`) is read by
`strtol` as a hexadecimal number, so `0xFFFFAA` and `ffffaa` give `0xFFFFAA`. -/
theorem named_transparent_colours_are_rgb :
    (∀ p, p ∈ htmlColours → ∀ s : List Char, s.map tolower = p.1.toList.map tolower →
      ColorNameToBGR s ≠ CLR_NONE ∧
      transColorOf s = bgr_to_rgb (ColorNameToBGR s) ∧
      transColorOf s = p.2 ∧
      ∀ (o : Options) (d : Char) (rest : List Char), IS_SPACE_OR_TAB d = true →
        (applyOption o ("Trans".toList ++ (s ++ d :: rest))).1.trans_color = p.2) ∧
    (∀ s : List Char, ColorNameToBGR s = CLR_NONE →
      transColorOf s = (strtol16 s % 2 ^ 32).toNat) ∧
    (transColorOf "0xFFFFAA".toList = 0xFFFFAA ∧ transColorOf "ffffaa".toList = 0xFFFFAA) := by
  refine ⟨fun p hp s hs => ?_, fun s h => ?_, by decide⟩
  · obtain ⟨hne, hrgb, hlen, hnosp⟩ := htmlColours_table p hp
    have hcongr : ColorNameToBGR s = ColorNameToBGR p.1.toList := ColorNameToBGR_congr s _ hs
    have htrans : transColorOf s = bgr_to_rgb (ColorNameToBGR s) := by
      unfold transColorOf
      rw [if_neg (by rw [hcongr]; exact hne)]
    have hval : transColorOf s = p.2 := by rw [htrans, hcongr, hrgb]
    refine ⟨by rw [hcongr]; exact hne, htrans, hval, fun o d rest hd => ?_⟩
    have hslen : s.length ≤ 31 := by
      have := congrArg List.length hs
      simp only [List.length_map] at this
      omega
    have hsnosp : ∀ c, c ∈ s → IS_SPACE_OR_TAB c = false := by
      intro c hc
      by_contra hsp
      have hsp' : IS_SPACE_OR_TAB c = true := by simpa using hsp
      have hmem : tolower c ∈ s.map tolower := List.mem_map.mpr ⟨c, hc, rfl⟩
      rw [tolower_of_IS_SPACE_OR_TAB c hsp', hs] at hmem
      rw [hnosp c hmem] at hsp'
      cases hsp'
    rw [applyOption_Trans, isolateColorName_append s rest d hsnosp hd hslen]
    exact hval
  · unfold transColorOf
    rw [if_pos h]

/-- Witness of C20: `yElLoW` is read as `0xFFFF00`, also through the option
`TransyElLoW` followed by a space. -/
theorem named_transparent_colours_are_rgb_witness :
    transColorOf "yElLoW".toList = 0xFFFF00 ∧
    (applyOption defaultOptions ("Trans".toList ++ ("yElLoW".toList ++ ' ' :: "f.bmp".toList))).1.trans_color
      = 0xFFFF00 :=
  ⟨(named_transparent_colours_are_rgb.1 ("Yellow", 0xFFFF00) (by decide) "yElLoW".toList
      (by decide)).2.2.1,
    (named_transparent_colours_are_rgb.1 ("Yellow", 0xFFFF00) (by decide) "yElLoW".toList
      (by decide)).2.2.2 defaultOptions ' ' "f.bmp".toList (by decide)⟩
theorem clampVariation_eq (z : Int) : clampVariation z = max 0 (min 255 z) := by
  unfold clampVariation
  by_cases h1 : z < 0 <;> by_cases h2 : z > 255 <;> simp only [h1, if_true, if_false] <;>
    split <;> omega

/-- Saturation at the range of `int` is invisible after the clamping to 0..255. -/
theorem clampVariation_saturateLong (z : Int) :
    clampVariation (saturateLong z) = clampVariation z := by
  rw [clampVariation_eq, clampVariation_eq]
  unfold saturateLong
  omega

/-- C14 (variation clamping). In the numeric asterisk-option (the branch taken
when the option is not `W`, `H`, `Icon` or `Trans`), the variation becomes
the integer read by `ATOI` clamped to 0..255: negative values give 0, which
selects the exact-match scan, and values above 255 give 255.  For a decimal
number this is the clamped value of the integer as written, however large.
The option is rejected only when no space or tab follows it, whatever
the number. -/
theorem variation_is_clamped (o : Options) (cp : List Char)
    (hW : toupper (deref cp) ≠ 'W') (hH : toupper (deref cp) ≠ 'H')
    (hIcon : _strnicmp cp "Icon".toList 4 ≠ 0) (hTrans : _strnicmp cp "Trans".toList 5 ≠ 0) :
    (applyOption o cp).1.aVariation = max 0 (min 255 (ATOI cp)) ∧
    (0 ≤ (applyOption o cp).1.aVariation ∧ (applyOption o cp).1.aVariation ≤ 255) ∧
    (ATOI cp < 0 → (applyOption o cp).1.aVariation = 0 ∧
      ∀ b : Buffers, (searchInputOf (applyOption o cp).1 b).aVariation < 1) ∧
    (ATOI cp > 255 → (applyOption o cp).1.aVariation = 255) ∧
    (IsHex cp = false →
      (applyOption o cp).1.aVariation = max 0 (min 255 (signedDigits 10 (skipSpaces cp)))) ∧
    (∀ b : Buffers, ((searchInputOf (applyOption o cp).1 b).aVariation : Int)
      = max 0 (min 255 (ATOI cp))) ∧
    (optionIteration o cp = none ↔ StrChrAny cp " \t".toList = none) := by
  have happ : applyOption o cp = ({ o with aVariation := clampVariation (ATOI cp) }, cp) := by
    unfold applyOption
    rw [if_neg hW, if_neg hH, if_neg hIcon, if_neg hTrans]
  have hvar : (applyOption o cp).1.aVariation = max 0 (min 255 (ATOI cp)) := by
    rw [happ, ← clampVariation_eq]
  refine ⟨hvar, by omega, fun hneg => ⟨by omega, fun b => ?_⟩, fun hbig => by omega,
    fun hhex => ?_, fun b => ?_, ?_⟩
  · show ((applyOption o cp).1.aVariation).toNat < 1
    omega
  · rw [happ]
    show clampVariation (ATOI cp) = _
    unfold ATOI atoi
    rw [hhex]
    simp only [Bool.false_eq_true, if_false]
    rw [clampVariation_saturateLong, clampVariation_eq]
  · show (((applyOption o cp).1.aVariation).toNat : Int) = _
    omega
  · unfold optionIteration
    rw [happ]
    cases StrChrAny cp " \t".toList <;> simp

/-- Witness of C14: the options `-5`, `300` and `0x10` set the variation to 0,
255 and 16, and `99999999999` sets it to 255. -/
theorem variation_is_clamped_witness :
    (applyOption defaultOptions "-5 f.bmp".toList).1.aVariation = max 0 (min 255 (-5)) ∧
    parseOptions defaultOptions "*-5 f.bmp".toList
      = some (some ({ defaultOptions with aVariation := 0 }, "f.bmp".toList)) ∧
    parseOptions defaultOptions "*300 f.bmp".toList
      = some (some ({ defaultOptions with aVariation := 255 }, "f.bmp".toList)) ∧
    parseOptions defaultOptions "*0x10 f.bmp".toList
      = some (some ({ defaultOptions with aVariation := 16 }, "f.bmp".toList)) ∧
    parseOptions defaultOptions "*99999999999 f.bmp".toList
      = some (some ({ defaultOptions with aVariation := 255 }, "f.bmp".toList)) :=
  ⟨(variation_is_clamped defaultOptions "-5 f.bmp".toList (by decide) (by decide) (by decide)
      (by decide)).1.trans (by decide),
    by decide, by decide, by decide, by decide⟩

theorem InBand_255 (c s : Nat) (hc : c < 256) (hs : s < 256) : InBand 255 c s := by
  unfold InBand; omega

/-- C27 (maximum tolerance matches everything). With variation 255, for a
template with at least one pixel whose width and height do not exceed the
surface's, and for every pixel content, mask, transparent colour and depth
flags, the search reports a match at index 0, that is at offset (0,0). -/
theorem maximum_tolerance_matches (inp : SearchInput) (hv : inp.aVariation = 255)
    (htw : 0 < inp.image_width) (hth : 0 < inp.image_height)
    (hw : inp.image_width ≤ inp.screen_width) (hh : inp.image_height ≤ inp.screen_height) :
    search inp = some 0 ∧ 0 % inp.screen_width = 0 ∧ 0 / inp.screen_width = 0 := by
  refine ⟨?_, Nat.zero_mod _, Nat.zero_div _⟩
  rw [search_eq_some_iff inp 0 htw hth]
  refine ⟨Nat.mul_pos (by omega) (by omega), ?_, fun r _ c _ => Or.inr ?_,
    fun t ht => absurd ht (Nat.not_lt_zero t)⟩
  · unfold Fits
    simp only [Nat.zero_div, Nat.zero_mod, Nat.sub_zero]
    exact ⟨hh, hw⟩
  · unfold ColourMatches
    rw [if_neg (by omega), hv]
    exact ⟨InBand_255 _ _ (GetRValue_lt _) (GetRValue_lt _),
      InBand_255 _ _ (GetGValue_lt _) (GetGValue_lt _),
      InBand_255 _ _ (GetBValue_lt _) (GetBValue_lt _)⟩

/-- Witness of C27: the template of `sampleMiss`, which occurs nowhere, is
found at index 0 with variation 255. -/
theorem maximum_tolerance_matches_witness :
    search sampleMiss = none ∧
    search { sampleMiss with aVariation := 255 } = some 0 :=
  ⟨by decide,
    (maximum_tolerance_matches { sampleMiss with aVariation := 255 } (by decide) (by decide)
      (by decide) (by decide) (by decide)).1⟩

/-! ## The two scans compared -/

/-- Under the fit check every surface index of the comparison is inside the surface. -/
theorem read_index_lt (tw th sw sh i r c : Nat) (hfh : th ≤ sh - i / sw)
    (hfw : tw ≤ sw - i % sw) (hr : r < th) (hc : c < tw) : i + r * sw + c < sw * sh := by
  have hdm : sw * (i / sw) + i % sw = i := Nat.div_add_mod i sw
  have hcol : i % sw + c < sw := by omega
  have hrow : i / sw + r < sh := by
    generalize i / sw = q at hfh
    omega
  have hk : i + r * sw + c = sw * (i / sw + r) + (i % sw + c) := by
    rw [Nat.mul_add, Nat.mul_comm sw r]
    omega
  rw [hk]
  calc sw * (i / sw + r) + (i % sw + c) < sw * (i / sw + r) + sw := by omega
    _ = sw * (i / sw + r + 1) := by rw [Nat.mul_add sw _ 1, Nat.mul_one]
    _ ≤ sw * sh := Nat.mul_le_mul_left sw hrow

/-- Two per-pixel tests that agree inside the template and the surface give the
same full comparison at a candidate that passes the fit check. -/
theorem matchLoop_congr_of_fits (ok1 ok2 : Nat → Nat → Bool) (tw th sw sh i : Nat)
    (htw : 0 < tw) (hfit : fitsAt tw th sw sh i = true)
    (hagree : ∀ j k, j < tw * th → k < sw * sh → ok1 j k = ok2 j k) :
    matchLoop ok1 tw sw i (tw * th) 0 0 0 i = matchLoop ok2 tw sw i (tw * th) 0 0 0 i := by
  unfold fitsAt at hfit
  simp only [Bool.and_eq_true, decide_eq_true_eq] at hfit
  have hin : ∀ r, r < th → ∀ c, c < tw → r * tw + c < tw * th ∧ i + r * sw + c < sw * sh := by
    intro r hr c hc
    refine ⟨?_, read_index_lt tw th sw sh i r c hfit.1 hfit.2 hr hc⟩
    calc r * tw + c < r * tw + tw := by omega
      _ = tw * (r + 1) := by rw [Nat.mul_add, Nat.mul_one, Nat.mul_comm]
      _ ≤ tw * th := Nat.mul_le_mul_left tw hr
  rw [Bool.eq_iff_iff, matchLoop_start _ _ _ _ _ htw, matchLoop_start _ _ _ _ _ htw]
  constructor
  · intro h r hr c hc
    rw [← hagree _ _ (hin r hr c hc).1 (hin r hr c hc).2]
    exact h r hr c hc
  · intro h r hr c hc
    rw [hagree _ _ (hin r hr c hc).1 (hin r hr c hc).2]
    exact h r hr c hc

/-- The test made before the full comparison repeats its first step. -/
theorem first_step_redundant (ok : Nat → Nat → Bool) (tw sw i n : Nat) (f : Bool)
    (hn : 0 < n) :
    ((ok 0 i && f) && matchLoop ok tw sw i n 0 0 0 i) = (f && matchLoop ok tw sw i n 0 0 0 i) := by
  obtain ⟨m, rfl⟩ : ∃ m, n = m + 1 := ⟨n - 1, by omega⟩
  unfold matchLoop
  cases ok 0 i <;> cases f <;> simp

theorem InBand_zero_iff (c s : Nat) (hc : c < 256) : InBand 0 c s ↔ s = c := by
  unfold InBand
  omega

/-- Two values below `2 ^ 24` are equal exactly when their three channels are. -/
theorem eq_iff_channels (a b : Nat) (ha : a < 2 ^ 24) (hb : b < 2 ^ 24) :
    b = a ↔ GetRValue b = GetRValue a ∧ GetGValue b = GetGValue a ∧
      GetBValue b = GetBValue a := by
  unfold GetRValue GetGValue GetBValue
  simp only [Nat.shiftRight_eq_div_pow]
  omega

/-- On 24-bit values the exact test is the variation test with variation 0. -/
theorem exactPixel_eq_variationPixel_zero (img scr : List Nat) (mask : Option (List Nat))
    (tc j k : Nat) (hj : img.getD j 0 < 2 ^ 24) (hk : scr.getD k 0 < 2 ^ 24) :
    exactPixel img scr mask tc j k = variationPixel img scr mask tc 0 j k := by
  rw [Bool.eq_iff_iff, exactPixel_iff, variationPixel_iff,
    InBand_zero_iff _ _ (GetRValue_lt _), InBand_zero_iff _ _ (GetGValue_lt _),
    InBand_zero_iff _ _ (GetBValue_lt _), ← eq_iff_channels _ _ hj hk]

/-- The variation test does not see whether the surface's high byte was cleared. -/
theorem variationPixel_maskPixels (img scr : List Nat) (mask : Option (List Nat))
    (tc v n j k : Nat) :
    variationPixel img (maskPixels 0x00FFFFFF n scr) mask tc v j k
      = variationPixel img scr mask tc v j k := by
  unfold variationPixel
  rw [getD_maskPixels]
  split
  · rw [GetRValue_land, GetGValue_land, GetBValue_land]
  · rfl

theorem scanVariation_maskPixels (img scr : List Nat) (mask : Option (List Nat))
    (tc v tw th sw sh n : Nat) :
    scanVariation img (maskPixels 0x00FFFFFF n scr) mask tc v tw th sw sh
      = scanVariation img scr mask tc v tw th sw sh := by
  unfold scanVariation variationCandidate
  have h : variationPixel img (maskPixels 0x00FFFFFF n scr) mask tc v
      = variationPixel img scr mask tc v := by
    funext j k
    exact variationPixel_maskPixels img scr mask tc v n j k
  rw [h]

/-- C26 (the two scans agree at zero tolerance). For a template with at least
one pixel and any surface, mask and transparent colour, when the variation
is 0 the variation scan run with `aVariation = 0` on the normalised buffers
returns the same result (found or not, and the same index) as the
exact-match scan that the dispatch selects; this holds for the surface as
the exact branch leaves it and for the surface before that branch clears
the high byte. -/
theorem scans_agree_at_zero (inp : SearchInput) (hv : inp.aVariation = 0)
    (htw : 0 < inp.image_width) (hth : 0 < inp.image_height) :
    scanVariation (normImage inp) (normScreen inp) inp.image_mask (normTransColor inp) 0
        inp.image_width inp.image_height inp.screen_width inp.screen_height = search inp ∧
    scanVariation (normImage inp) (screenAfter16 inp) inp.image_mask (normTransColor inp) 0
        inp.image_width inp.image_height inp.screen_width inp.screen_height = search inp := by
  have hlt : inp.aVariation < 1 := by omega
  have hscr : normScreen inp
      = maskPixels 0x00FFFFFF (screen_pixel_count inp) (screenAfter16 inp) := by
    unfold normScreen
    rw [if_pos hlt]
  have hfirst : scanVariation (normImage inp) (normScreen inp) inp.image_mask
      (normTransColor inp) 0 inp.image_width inp.image_height inp.screen_width
      inp.screen_height = search inp := by
    unfold search
    rw [if_pos hlt]
    unfold scanVariation scanExact
    congr 1
    funext i
    unfold variationCandidate exactCandidate
    rw [first_step_redundant _ _ _ _ _ _ (Nat.mul_pos htw hth)]
    cases hfit : fitsAt inp.image_width inp.image_height inp.screen_width inp.screen_height i
    · rfl
    · rw [Bool.true_and, Bool.true_and]
      refine (matchLoop_congr_of_fits _ _ _ _ _ inp.screen_height _ htw hfit
        (fun j k hj hk => ?_)).symm
      refine exactPixel_eq_variationPixel_zero _ _ _ _ _ _ (normImage_lt inp j hj) ?_
      rw [hscr, getD_maskPixels, if_pos (show k < screen_pixel_count inp from hk), land_low24]
      exact Nat.mod_lt _ (by decide)
  refine ⟨hfirst, ?_⟩
  rw [← hfirst, hscr, scanVariation_maskPixels]

/-- Witness of C26 on `sampleInput`, whose variation is 0. -/
theorem scans_agree_at_zero_witness :
    sampleInput.aVariation = 0 ∧
    scanVariation (normImage sampleInput) (normScreen sampleInput) sampleInput.image_mask
        (normTransColor sampleInput) 0 2 2 4 4 = some 6 ∧
    search sampleInput = some 6 :=
  ⟨by decide,
    (scans_agree_at_zero sampleInput (by decide) (by decide) (by decide)).1.trans (by decide),
    by decide⟩

/-- In both branches the scan sees the surface only with its high byte cleared. -/
theorem search_via_cleared (inp : SearchInput) :
    search inp =
      if inp.aVariation < 1 then
        scanExact (normImage inp)
          (maskPixels 0x00FFFFFF (screen_pixel_count inp) (screenAfter16 inp))
          inp.image_mask (normTransColor inp)
          inp.image_width inp.image_height inp.screen_width inp.screen_height
      else
        scanVariation (normImage inp)
          (maskPixels 0x00FFFFFF (screen_pixel_count inp) (screenAfter16 inp))
          inp.image_mask (normTransColor inp) inp.aVariation
          inp.image_width inp.image_height inp.screen_width inp.screen_height := by
  unfold search normScreen
  by_cases hv : inp.aVariation < 1
  · simp only [if_pos hv]
  · simp only [if_neg hv]
    rw [scanVariation_maskPixels]

theorem land_F8_of_land_FF (x y : Nat) (h : x &&& 0x00FFFFFF = y &&& 0x00FFFFFF) :
    x &&& 0x00F8F8F8 = y &&& 0x00F8F8F8 := by
  have hx : ∀ z : Nat, z &&& 0x00F8F8F8 = (z &&& 0x00FFFFFF) &&& 0x00F8F8F8 := by
    intro z
    rw [Nat.land_assoc]
    rfl
  rw [hx x, hx y, h]

/-- C25 (the surface's high-order byte never influences the result). Two
surfaces of the same dimensions whose pixels agree in their low 24 bits give
the same search result, for every template, mask, transparent colour, depth
flags and variation. -/
theorem high_byte_is_ignored (inp : SearchInput) (scr2 : List Nat)
    (hlen1 : inp.screen_pixel.length = inp.screen_width * inp.screen_height)
    (hlen2 : scr2.length = inp.screen_width * inp.screen_height)
    (hagree : ∀ k, k < inp.screen_width * inp.screen_height →
      inp.screen_pixel.getD k 0 &&& 0x00FFFFFF = scr2.getD k 0 &&& 0x00FFFFFF) :
    search { inp with screen_pixel := scr2 } = search inp := by
  have hcleared : maskPixels 0x00FFFFFF (screen_pixel_count inp)
        (screenAfter16 { inp with screen_pixel := scr2 })
      = maskPixels 0x00FFFFFF (screen_pixel_count inp) (screenAfter16 inp) := by
    unfold screenAfter16
    rw [show either16 { inp with screen_pixel := scr2 } = either16 inp from rfl]
    cases h16 : either16 inp
    · simp only [Bool.false_eq_true, if_false]
      show maskPixels 0x00FFFFFF (screen_pixel_count inp) scr2 = _
      unfold screen_pixel_count
      rw [maskPixels_eq_map _ _ _ (Nat.le_of_eq hlen2),
        maskPixels_eq_map _ _ _ (Nat.le_of_eq hlen1)]
      refine (map_land_congr _ _ _ (by rw [hlen1, hlen2]) (fun k hk => ?_)).symm
      exact hagree k (by rw [← hlen1]; exact hk)
    · simp only [if_true]
      have hinner : maskPixels 0x00F8F8F8 (screen_pixel_count inp) scr2
          = maskPixels 0x00F8F8F8 (screen_pixel_count inp) inp.screen_pixel := by
        unfold screen_pixel_count
        rw [maskPixels_eq_map _ _ _ (Nat.le_of_eq hlen2),
          maskPixels_eq_map _ _ _ (Nat.le_of_eq hlen1)]
        refine (map_land_congr _ _ _ (by rw [hlen1, hlen2]) (fun k hk => ?_)).symm
        exact land_F8_of_land_FF _ _ (hagree k (by rw [← hlen1]; exact hk))
      show maskPixels 0x00FFFFFF (screen_pixel_count inp)
        (maskPixels 0x00F8F8F8 (screen_pixel_count inp) scr2) = _
      rw [hinner]
  rw [search_via_cleared, search_via_cleared inp]
  show (if inp.aVariation < 1 then
      scanExact (normImage inp)
        (maskPixels 0x00FFFFFF (screen_pixel_count inp)
          (screenAfter16 { inp with screen_pixel := scr2 }))
        inp.image_mask (normTransColor inp)
        inp.image_width inp.image_height inp.screen_width inp.screen_height
    else
      scanVariation (normImage inp)
        (maskPixels 0x00FFFFFF (screen_pixel_count inp)
          (screenAfter16 { inp with screen_pixel := scr2 }))
        inp.image_mask (normTransColor inp) inp.aVariation
        inp.image_width inp.image_height inp.screen_width inp.screen_height) = _
  rw [hcleared]

/-- Witness of C25: the surface of `sampleInput` and the same surface with the
high byte of every pixel set, at variation 0 and at variation 3. -/
theorem high_byte_is_ignored_witness :
    search { sampleInput with
        screen_pixel := sampleInput.screen_pixel.map (fun p => p ||| 0xFF000000) }
      = search sampleInput ∧
    search { sampleInput with
        aVariation := 3
        screen_pixel := sampleInput.screen_pixel.map (fun p => p ||| 0xFF000000) }
      = search { sampleInput with aVariation := 3 } :=
  ⟨high_byte_is_ignored sampleInput
      (sampleInput.screen_pixel.map (fun p => p ||| 0xFF000000))
      (by decide) (by decide) (by decide),
    high_byte_is_ignored { sampleInput with aVariation := 3 }
      (sampleInput.screen_pixel.map (fun p => p ||| 0xFF000000))
      (by decide) (by decide) (by decide)⟩

/-- A 32-bit signed integer prints in at most 11 characters. -/
theorem toString_int32_length (z : Int) (h : IsInt32 z) : (toString z).length ≤ 11 := by
  unfold IsInt32 at h
  cases z with
  | ofNat m =>
    show (Nat.repr m).length ≤ 11
    have hm : m < 10 ^ 10 := by
      have : (m : Int) < 2 ^ 31 := h.2
      omega
    have := Nat.repr_length m 10 (by decide) hm
    omega
  | negSucc m =>
    show ("-" ++ Nat.repr (m + 1)).length ≤ 11
    have hm : m + 1 < 10 ^ 10 := by
      have : -(2 ^ 31 : Int) ≤ Int.negSucc m := h.1
      rw [Int.negSucc_eq] at this
      omega
    have := Nat.repr_length (m + 1) 10 (by decide) hm
    rw [String.length_append]
    show 1 + (Nat.repr (m + 1)).length ≤ 11
    omega

theorem wrapInt32_IsInt32 (z : Int) : IsInt32 (wrapInt32 z) := by
  unfold IsInt32 wrapInt32
  omega

/-- C24 (the result string fits its buffer). For 32-bit signed values of the two
coordinates and the two template dimensions, the text `"1|X|Y|W|H"` has at
most 49 characters, so with its terminator it fits the 50 bytes of `answer`;
in particular the text that a successful call writes into `answer` does. -/
theorem answer_fits_buffer (locx locy w h : Int) (hx : IsInt32 locx) (hy : IsInt32 locy)
    (hw : IsInt32 w) (hh : IsInt32 h) :
    (formatAnswer locx locy w h).length ≤ 49 ∧
    (formatAnswer locx locy w h).length + 1 ≤ 50 ∧
    (∀ (aLeft aTop : Int) (inp : SearchInput) (g : Globals),
      search inp ≠ none → (inp.image_width : Int) = w → (inp.image_height : Int) = h →
      (ImageSearchEnd aLeft aTop inp g).2.answer.length + 1 ≤ 50) := by
  have hfmt : ∀ a b c d : Int, IsInt32 a → IsInt32 b → IsInt32 c → IsInt32 d →
      (formatAnswer a b c d).length ≤ 49 := by
    intro a b c d ha hb hc hd
    unfold formatAnswer
    have h1 := toString_int32_length a ha
    have h2 := toString_int32_length b hb
    have h3 := toString_int32_length c hc
    have h4 := toString_int32_length d hd
    simp only [String.length_append]
    have e1 : ("1|" : String).length = 2 := rfl
    have e2 : ("|" : String).length = 1 := rfl
    rw [e1, e2]
    omega
  have := hfmt locx locy w h hx hy hw hh
  refine ⟨this, by omega, fun aLeft aTop inp g hs hiw hih => ?_⟩
  unfold ImageSearchEnd
  cases hsi : search inp with
  | none => exact absurd hsi hs
  | some i =>
    have := hfmt _ _ _ _
      (wrapInt32_IsInt32 (wrapInt32 (aLeft + ((i % inp.screen_width : Nat) : Int)) - rect_origin))
      (wrapInt32_IsInt32 (wrapInt32 (aTop + ((i / inp.screen_width : Nat) : Int)) - rect_origin))
      (hiw ▸ hw) (hih ▸ hh)
    show (formatAnswer _ _ _ _).length + 1 ≤ 50
    omega

/-- Witness of C24: the longest text, with all four values `-2147483648`, has
49 characters. -/
theorem answer_fits_buffer_witness :
    IsInt32 (-2147483648) ∧
    (formatAnswer (-2147483648) (-2147483648) (-2147483648) (-2147483648)).length = 49 ∧
    (formatAnswer (-2147483648) (-2147483648) (-2147483648) (-2147483648)).length + 1 ≤ 50 :=
  ⟨by decide, by decide,
    (answer_fits_buffer (-2147483648) (-2147483648) (-2147483648) (-2147483648) (by decide)
      (by decide) (by decide) (by decide)).2.1⟩

/-! ## Facts about `ATOI` -/

theorem omit_leading_whitespace_append (ws t : List Char)
    (hws : ∀ c, c ∈ ws → IS_SPACE_OR_TAB c = true) :
    omit_leading_whitespace (ws ++ t) = omit_leading_whitespace t := by
  induction ws with
  | nil => rfl
  | cons c cs ih =>
    show omit_leading_whitespace (c :: (cs ++ t)) = _
    rw [omit_leading_whitespace, if_pos (hws c (List.mem_cons_self c cs))]
    exact ih (fun x hx => hws x (List.mem_cons_of_mem c hx))

theorem omit_leading_whitespace_spec (s : List Char) :
    ∃ ws, s = ws ++ omit_leading_whitespace s ∧ ∀ c, c ∈ ws → IS_SPACE_OR_TAB c = true := by
  induction s with
  | nil => exact ⟨[], rfl, fun c hc => by cases hc⟩
  | cons a s ih =>
    by_cases ha : IS_SPACE_OR_TAB a = true
    · obtain ⟨ws, h1, h2⟩ := ih
      refine ⟨a :: ws, ?_, ?_⟩
      · rw [omit_leading_whitespace, if_pos ha, List.cons_append, ← h1]
      · intro c hc
        rcases List.mem_cons.mp hc with h | h
        · rw [h]; exact ha
        · exact h2 c h
    · refine ⟨[], ?_, fun c hc => by cases hc⟩
      rw [omit_leading_whitespace, if_neg ha]
      rfl

theorem isspace_of_IS_SPACE_OR_TAB (c : Char) (h : IS_SPACE_OR_TAB c = true) :
    isspace c = true := by
  unfold IS_SPACE_OR_TAB at h
  simp only [Bool.or_eq_true, beq_iff_eq] at h
  rcases h with h | h <;> subst h <;> decide

theorem skipSpaces_append (ws t : List Char)
    (hws : ∀ c, c ∈ ws → IS_SPACE_OR_TAB c = true) :
    skipSpaces (ws ++ t) = skipSpaces t := by
  induction ws with
  | nil => rfl
  | cons c cs ih =>
    show skipSpaces (c :: (cs ++ t)) = _
    rw [skipSpaces, if_pos (isspace_of_IS_SPACE_OR_TAB c (hws c (List.mem_cons_self c cs)))]
    exact ih (fun x hx => hws x (List.mem_cons_of_mem c hx))

/-- The test `IS_HEX` holds exactly for `0x` or `0X` followed by a hex digit. -/
theorem IS_HEX_iff (u : List Char) :
    IS_HEX u = true ↔
      ∃ (x d : Char) (rest : List Char),
        u = '0' :: x :: d :: rest ∧ (x = 'x' ∨ x = 'X') ∧ isxdigit d = true := by
  unfold IS_HEX
  constructor
  · intro h
    simp only [Bool.and_eq_true, Bool.or_eq_true, beq_iff_eq] at h
    obtain ⟨⟨h0, h1⟩, h2⟩ := h
    match u, h0, h1, h2 with
    | [], h0, _, _ => exact absurd h0 (by decide)
    | [_], _, h1, _ =>
      have h1n : NUL = 'x' ∨ NUL = 'X' := h1
      exact absurd h1n (by decide)
    | [_, _], _, _, h2 =>
      have h2n : isxdigit NUL = true := h2
      exact absurd h2n (by decide)
    | a :: x :: d :: rest, h0, h1, h2 =>
      refine ⟨x, d, rest, ?_, h1, h2⟩
      have : a = '0' := h0
      rw [this]
  · rintro ⟨x, d, rest, rfl, hx, hd⟩
    simp only [Bool.and_eq_true, Bool.or_eq_true, beq_iff_eq]
    exact ⟨⟨rfl, hx⟩, hd⟩
theorem IsHex_of_omit (s t : List Char) (h : omit_leading_whitespace s = t) :
    IsHex s =
      if deref t = NUL then false
      else IS_HEX (if deref t = '-' || deref t = '+' then t.drop 1 else t) := by
  subst h
  rfl

theorem hexBody_prefixed (x d : Char) (rest : List Char) (hx : x = 'x' ∨ x = 'X') :
    hexBody ('0' :: x :: d :: rest) = digitsValue 16 0 (d :: rest) := by
  unfold hexBody
  rcases hx with rfl | rfl <;> rfl

/-- The function `IsHex` accepts exactly the texts of the form described by `HexForm`. -/
theorem IsHex_iff_HexForm (s : List Char) : IsHex s = true ↔ HexForm s := by
  constructor
  · intro h
    obtain ⟨ws, hs, hws⟩ := omit_leading_whitespace_spec s
    rw [IsHex_of_omit s _ rfl] at h
    generalize omit_leading_whitespace s = t at hs h
    by_cases hnul : deref t = NUL
    · rw [if_pos hnul] at h; cases h
    · rw [if_neg hnul] at h
      cases t with
      | nil => exact absurd rfl hnul
      | cons c t1 =>
        have hd : deref (c :: t1) = c := rfl
        rw [hd] at h
        by_cases hsign : (c = '-' || c = '+') = true
        · rw [if_pos hsign] at h
          obtain ⟨x, d, rest, ht, hx, hdg⟩ := (IS_HEX_iff _).mp h
          have ht1 : t1 = '0' :: x :: d :: rest := ht
          simp only [Bool.or_eq_true, decide_eq_true_eq] at hsign
          refine ⟨ws, [c], rest, x, d, ?_, hws, ?_, hx, hdg⟩
          · rw [hs, ht1]; rfl
          · rcases hsign with rfl | rfl
            · exact Or.inr (Or.inl rfl)
            · exact Or.inr (Or.inr rfl)
        · rw [if_neg hsign] at h
          obtain ⟨x, d, rest, ht, hx, hdg⟩ := (IS_HEX_iff _).mp h
          exact ⟨ws, [], rest, x, d, by rw [hs, ht]; rfl, hws, Or.inl rfl, hx, hdg⟩
  · rintro ⟨ws, sign, rest, x, d, rfl, hws, hsign, hx, hd⟩
    have hhex : IS_HEX ('0' :: x :: d :: rest) = true :=
      (IS_HEX_iff _).mpr ⟨x, d, rest, rfl, hx, hd⟩
    rcases hsign with rfl | rfl | rfl
    · have ho : omit_leading_whitespace (ws ++ ([] ++ '0' :: x :: d :: rest))
          = '0' :: x :: d :: rest := by
        rw [omit_leading_whitespace_append _ _ hws]
        show omit_leading_whitespace ('0' :: x :: d :: rest) = _
        rw [omit_leading_whitespace, if_neg (by decide)]
      rw [IsHex_of_omit _ _ ho]
      exact hhex
    · have ho : omit_leading_whitespace (ws ++ (['-'] ++ '0' :: x :: d :: rest))
          = '-' :: '0' :: x :: d :: rest := by
        rw [omit_leading_whitespace_append _ _ hws]
        show omit_leading_whitespace ('-' :: '0' :: x :: d :: rest) = _
        rw [omit_leading_whitespace, if_neg (by decide)]
      rw [IsHex_of_omit _ _ ho]
      exact hhex
    · have ho : omit_leading_whitespace (ws ++ (['+'] ++ '0' :: x :: d :: rest))
          = '+' :: '0' :: x :: d :: rest := by
        rw [omit_leading_whitespace_append _ _ hws]
        show omit_leading_whitespace ('+' :: '0' :: x :: d :: rest) = _
        rw [omit_leading_whitespace, if_neg (by decide)]
      rw [IsHex_of_omit _ _ ho]
      exact hhex

theorem strtol16_of_skip (s t : List Char) (h : skipSpaces s = t) :
    strtol16 s = saturateLong
      (if deref t = '-' then -((hexBody (t.drop 1) : Nat) : Int)
       else if deref t = '+' then ((hexBody (t.drop 1) : Nat) : Int)
       else ((hexBody t : Nat) : Int)) := by
  subst h
  rfl

/-- The value that `strtol` base 16 gives to a text of the hexadecimal form. -/
theorem strtol16_HexForm (ws sign rest : List Char) (x d : Char)
    (hws : ∀ c, c ∈ ws → IS_SPACE_OR_TAB c = true)
    (hsign : sign = [] ∨ sign = ['-'] ∨ sign = ['+']) (hx : x = 'x' ∨ x = 'X') :
    strtol16 (ws ++ (sign ++ '0' :: x :: d :: rest))
      = saturateLong ((if sign = ['-'] then -1 else 1)
          * ((digitsValue 16 0 (d :: rest) : Nat) : Int)) := by
  have hb := hexBody_prefixed x d rest hx
  rcases hsign with rfl | rfl | rfl
  · have hk : skipSpaces (ws ++ ([] ++ '0' :: x :: d :: rest)) = '0' :: x :: d :: rest := by
      rw [skipSpaces_append _ _ hws]
      show skipSpaces ('0' :: x :: d :: rest) = _
      rw [skipSpaces, if_neg (by decide)]
    rw [strtol16_of_skip _ _ hk]
    have hd : deref ('0' :: x :: d :: rest) = '0' := rfl
    rw [hd, if_neg (by decide), if_neg (by decide), hb, if_neg (by decide), Int.one_mul]
  · have hk : skipSpaces (ws ++ (['-'] ++ '0' :: x :: d :: rest))
        = '-' :: '0' :: x :: d :: rest := by
      rw [skipSpaces_append _ _ hws]
      show skipSpaces ('-' :: '0' :: x :: d :: rest) = _
      rw [skipSpaces, if_neg (by decide)]
    rw [strtol16_of_skip _ _ hk]
    have hd : deref ('-' :: '0' :: x :: d :: rest) = '-' := rfl
    have hdr : ('-' :: '0' :: x :: d :: rest).drop 1 = '0' :: x :: d :: rest := rfl
    rw [hd, if_pos rfl, hdr, hb, if_pos rfl, neg_one_mul]
  · have hk : skipSpaces (ws ++ (['+'] ++ '0' :: x :: d :: rest))
        = '+' :: '0' :: x :: d :: rest := by
      rw [skipSpaces_append _ _ hws]
      show skipSpaces ('+' :: '0' :: x :: d :: rest) = _
      rw [skipSpaces, if_neg (by decide)]
    rw [strtol16_of_skip _ _ hk]
    have hd : deref ('+' :: '0' :: x :: d :: rest) = '+' := rfl
    have hdr : ('+' :: '0' :: x :: d :: rest).drop 1 = '0' :: x :: d :: rest := rfl
    rw [hd, if_neg (by decide), if_pos rfl, hdr, hb, if_neg (by decide), Int.one_mul]

/-- C23 (`ATOI` number parsing). `ATOI` reads a text as hexadecimal exactly when,
after leading spaces or tabs and an optional sign, it starts with `0x` or
`0X` followed by at least one hex digit: the value is then the signed
base-16 value of the digits after the prefix.  Every other text is read by
`atoi`, in base 10: `010` gives 10, not 8, and `0x` without a hex digit
gives 0.  Values outside the range of `int` saturate. -/
theorem ATOI_reads_hex_or_decimal (s : List Char) :
    (IsHex s = true ↔ HexForm s) ∧
    (HexForm s → ATOI s = strtol16 s) ∧
    (∀ (ws sign rest : List Char) (x d : Char),
      s = ws ++ (sign ++ '0' :: x :: d :: rest) →
      (∀ c, c ∈ ws → IS_SPACE_OR_TAB c = true) →
      (sign = [] ∨ sign = ['-'] ∨ sign = ['+']) → (x = 'x' ∨ x = 'X') → isxdigit d = true →
      ATOI s = saturateLong ((if sign = ['-'] then -1 else 1)
        * ((digitsValue 16 0 (d :: rest) : Nat) : Int))) ∧
    (¬ HexForm s →
      ATOI s = atoi s ∧ ATOI s = saturateLong (signedDigits 10 (skipSpaces s))) ∧
    (ATOI "010".toList = 10 ∧ ATOI "0x".toList = 0 ∧ ATOI "0x1F".toList = 31 ∧
      ATOI " -0X10".toList = -16 ∧ ATOI "0xG".toList = 0) := by
  refine ⟨IsHex_iff_HexForm s, fun h => ?_, fun ws sign rest x d hs hws hsign hx hd => ?_,
    fun h => ?_, by decide⟩
  · unfold ATOI
    rw [if_pos ((IsHex_iff_HexForm s).mpr h)]
  · have hform : HexForm s := ⟨ws, sign, rest, x, d, hs, hws, hsign, hx, hd⟩
    unfold ATOI
    rw [if_pos ((IsHex_iff_HexForm s).mpr hform), hs]
    exact strtol16_HexForm ws sign rest x d hws hsign hx
  · have hno : ¬ IsHex s = true := fun hh => h ((IsHex_iff_HexForm s).mp hh)
    unfold ATOI
    rw [if_neg hno]
    exact ⟨rfl, rfl⟩

/-- Witness of C23: ` -0X1f` has the hexadecimal form and is read as -31. -/
theorem ATOI_reads_hex_or_decimal_witness :
    HexForm " -0X1f".toList ∧ ATOI " -0X1f".toList = -31 :=
  ⟨((ATOI_reads_hex_or_decimal " -0X1f".toList).1).mp (by decide),
    ((ATOI_reads_hex_or_decimal " -0X1f".toList).2.2.1 [' '] ['-'] ['f'] 'X' '1' (by decide)
      (by decide) (by decide) (by decide) (by decide)).trans (by decide)⟩

/-! ## Rejected options -/

theorem StrChrAnyLoop_none (l s : List Char) (h : ∀ c, c ∈ s → l.contains c = false) :
    StrChrAnyLoop l s = none := by
  have := StrChrAnyLoop_append l s [] h
  rw [List.append_nil] at this
  rw [this]
  rfl

theorem contains_space_tab (c : Char) : " \t".toList.contains c = IS_SPACE_OR_TAB c := by
  cases h1 : (c == ' ') <;> cases h2 : (c == '\t') <;>
    simp [IS_SPACE_OR_TAB, List.contains, List.elem, h1, h2]

theorem StrChrAny_none (s : List Char) (h : ∀ c, c ∈ s → IS_SPACE_OR_TAB c = false) :
    StrChrAny s " \t".toList = none := by
  unfold StrChrAny
  split
  · rfl
  · refine StrChrAnyLoop_none _ _ (fun c hc => ?_)
    rw [contains_space_tab]
    exact h c hc

/-- An option with no space or tab after its asterisk is rejected. -/
theorem optionIteration_none (o : Options) (rest : List Char)
    (h : ∀ c, c ∈ rest → IS_SPACE_OR_TAB c = false) : optionIteration o rest = none := by
  have hsuffix : ∀ c, c ∈ (applyOption o rest).2 → c ∈ rest := by
    intro c hc
    unfold applyOption at hc
    split at hc
    · exact hc
    · split at hc
      · exact hc
      · split at hc
        · exact List.mem_of_mem_drop hc
        · split at hc
          · exact List.mem_of_mem_drop hc
          · exact hc
  unfold optionIteration
  rw [StrChrAny_none _ (fun c hc => h c (hsuffix c hc))]

/-- Once the loop reaches an option with no space or tab after it, it returns `"0"`. -/
theorem optionsLoop_rejects (st st2 : Options × List Char × List Char)
    (hreach : LoopReaches st st2) :
    ∀ (o : Options) (f rest : List Char), st2 = (o, f, '*' :: rest) →
      (∀ c, c ∈ rest → IS_SPACE_OR_TAB c = false) →
      ∀ fuel, st.2.2.length < fuel → optionsLoop fuel st.1 st.2.1 st.2.2 = some none := by
  induction hreach with
  | here st =>
    intro o f rest hst hno fuel hfuel
    subst hst
    obtain ⟨n, rfl⟩ : ∃ n, fuel = n + 1 := ⟨fuel - 1, by omega⟩
    show optionsLoop (n + 1) o f ('*' :: rest) = some none
    unfold optionsLoop
    have hd : deref ('*' :: rest) = '*' := rfl
    have hdr : ('*' :: rest).drop 1 = rest := rfl
    rw [if_pos hd, hdr, optionIteration_none o rest hno]
  | next o1 f1 cp st2 st3 hstar hit _ ih =>
    intro o f rest hst hno fuel hfuel
    obtain ⟨n, rfl⟩ : ∃ n, fuel = n + 1 := ⟨fuel - 1, by omega⟩
    obtain ⟨o2, f2, cp2⟩ := st2
    show optionsLoop (n + 1) o1 f1 cp = some none
    unfold optionsLoop
    rw [if_pos hstar, hit]
    have hlen := length_optionIteration o1 o2 (cp.drop 1) f2 cp2 hit
    simp only [List.length_drop] at hlen
    have hfuel1 : cp.length < n + 1 := hfuel
    exact ih o f rest hst hno n (show cp2.length < n by omega)

/-- C22 (malformed option string). If the options loop, started on the image-file
argument, arrives at an asterisk-option with no space or tab after it, the
options are rejected and `ImageSearch` returns `"0"`, whatever the Windows
calls would deliver: no image is loaded, nothing is searched and `answer`
is left as it was. -/
theorem malformed_option_returns_zero (capture : Options → List Char → Option Buffers)
    (cxSmIcon cySmIcon aLeft aTop : Int) (aImageFile : List Char) (g : Globals)
    (o : Options) (f rest : List Char)
    (hreach : LoopReaches
      (initialOptions aImageFile cxSmIcon cySmIcon, aImageFile,
        omit_leading_whitespace aImageFile)
      (o, f, '*' :: rest))
    (hno : ∀ c, c ∈ rest → IS_SPACE_OR_TAB c = false) :
    parseOptions (initialOptions aImageFile cxSmIcon cySmIcon) aImageFile = some none ∧
    ImageSearch capture cxSmIcon cySmIcon aLeft aTop aImageFile g = (Returned.literalZero, g) ∧
    textAt (ImageSearch capture cxSmIcon cySmIcon aLeft aTop aImageFile g).2
      (ImageSearch capture cxSmIcon cySmIcon aLeft aTop aImageFile g).1 = "0" := by
  have hparse : parseOptions (initialOptions aImageFile cxSmIcon cySmIcon) aImageFile
      = some none := by
    unfold parseOptions
    exact optionsLoop_rejects _ _ hreach o f rest rfl hno _
      (Nat.lt_succ_of_le (length_omit_leading_whitespace aImageFile))
  have hres : ImageSearch capture cxSmIcon cySmIcon aLeft aTop aImageFile g
      = (Returned.literalZero, g) := by
    unfold ImageSearch
    rw [hparse]
  refine ⟨hparse, hres, ?_⟩
  rw [hres]
  rfl

/-- Witness of C22: in `*50 *TransRedfile.bmp` the first option is accepted and
the second has no space or tab after it, so `"0"` is returned although the
capture would deliver a matching surface. -/
theorem malformed_option_returns_zero_witness :
    ImageSearch sampleCapture 16 16 0 0 "*50 *TransRedfile.bmp".toList { answer := "kept" }
      = (Returned.literalZero, { answer := "kept" }) ∧
    ImageSearch sampleCapture 16 16 0 0 "*50 *TransRed file.bmp".toList { answer := "kept" }
      = (Returned.answerBuffer, { answer := "1|0|0|2|2" }) :=
  ⟨(malformed_option_returns_zero sampleCapture 16 16 0 0 "*50 *TransRedfile.bmp".toList
      { answer := "kept" } { defaultOptions with aVariation := 50 }
      "*TransRedfile.bmp".toList "TransRedfile.bmp".toList
      (LoopReaches.next _ _ _ _ _ (by decide) (by decide) (LoopReaches.here _))
      (by decide)).2.1,
    by decide⟩

/-! ## The 8-bit conversion of `getbits` -/

theorem RGB_lt (r g b : Nat) : RGB r g b < 2 ^ 24 := by
  unfold RGB
  refine Nat.or_lt_two_pow (Nat.or_lt_two_pow ?_ ?_) ?_
  · omega
  · rw [Nat.shiftLeft_eq]; omega
  · rw [Nat.shiftLeft_eq]; omega

theorem rgb_to_bgr_lt (v : Nat) : rgb_to_bgr v < 2 ^ 24 := RGB_lt _ _ _

/-- A slot returns the value stored in it. -/
theorem loadDword_storeDword_same (mem : Int → Nat) (p : Int) (v : Nat) (hv : v < 2 ^ 32) :
    loadDword (storeDword mem p v) p = v := by
  unfold loadDword storeDword
  have h0 : (4 * p - 4 * p).toNat = 0 := by omega
  have h1 : (4 * p + 1 - 4 * p).toNat = 1 := by omega
  have h2 : (4 * p + 2 - 4 * p).toNat = 2 := by omega
  have h3 : (4 * p + 3 - 4 * p).toNat = 3 := by omega
  rw [if_pos (by omega), if_pos (by omega), if_pos (by omega), if_pos (by omega), h0, h1, h2, h3]
  simp only [Nat.shiftRight_eq_div_pow]
  omega

/-- A store leaves the other slots as they were. -/
theorem loadDword_storeDword_other (mem : Int → Nat) (p q : Int) (v : Nat) (h : q ≠ p) :
    loadDword (storeDword mem p v) q = loadDword mem q := by
  unfold loadDword storeDword
  rw [if_neg (by omega), if_neg (by omega), if_neg (by omega), if_neg (by omega)]

theorem storeDword_below (mem : Int → Nat) (p a : Int) (v : Nat) (h : a < 4 * p) :
    storeDword mem p v a = mem a := by
  unfold storeDword
  rw [if_neg (by omega)]

/-- A position inside a row determines its row and column. -/
theorem rowcol_unique (W r c r2 c2 : Nat) (hc : c < W) (hc2 : c2 < W)
    (h : r * W + c = r2 * W + c2) : r = r2 ∧ c = c2 := by
  have hW : 0 < W := by omega
  have hd : (r * W + c) / W = r := by
    rw [Nat.mul_comm, Nat.mul_add_div hW, Nat.div_eq_of_lt hc, Nat.add_zero]
  have hd2 : (r2 * W + c2) / W = r2 := by
    rw [Nat.mul_comm, Nat.mul_add_div hW, Nat.div_eq_of_lt hc2, Nat.add_zero]
  have hr : r = r2 := by rw [← hd, ← hd2, h]
  subst hr
  exact ⟨rfl, by omega⟩

/-- The index byte of a pixel lies below the slot after the pixel's own slot. -/
theorem index_byte_below_slot (W pad r c : Nat) (hW : 1 ≤ W) (hpad : pad ≤ 3) :
    r * (W + pad) + c < 4 * (r * W + c + 1) := by
  have h1 : r * pad ≤ r * 3 := Nat.mul_le_mul_left r hpad
  have h2 : r * 1 ≤ r * W := Nat.mul_le_mul_left r hW
  rw [Nat.mul_add]
  omega

/-- One step of the inner loop keeps the invariant, one slot lower. -/
theorem expand_step (palette : Nat → Nat) (W H pad : Nat) (mem0 mem : Int → Nat)
    (r n : Nat) (hW : 1 ≤ W) (hpad : pad ≤ 3) (hr : r < H) (hn : n < W)
    (hinv : ExpandInv palette W H pad mem0 mem (r * W + n + 1)) :
    ExpandInv palette W H pad mem0
      (storeDword mem ((r * W + n : Nat) : Int)
        (rgb_to_bgr (palette (mem ((r * (W + pad) + n : Nat) : Int)))))
      (r * W + n) := by
  obtain ⟨h1, h2⟩ := hinv
  have hread : mem ((r * (W + pad) + n : Nat) : Int) = mem0 ((r * (W + pad) + n : Nat) : Int) := by
    apply h1
    have := index_byte_below_slot W pad r n hW hpad
    omega
  rw [hread]
  constructor
  · intro a ha
    rw [storeDword_below _ _ _ _ (by omega)]
    exact h1 a (by omega)
  · intro r2 c2 hr2 hc2 hq
    by_cases heq : r2 * W + c2 = r * W + n
    · obtain ⟨e1, e2⟩ := rowcol_unique W r2 c2 r n hc2 hn heq
      subst e1 e2
      rw [loadDword_storeDword_same _ _ _
        (Nat.lt_of_lt_of_le (rgb_to_bgr_lt _) (by decide))]
    · rw [loadDword_storeDword_other _ _ _ _ (by omega)]
      exact h2 r2 c2 hr2 hc2 (by omega)

/-- The inner loop over the last `n` columns of row `r`. -/
theorem expandRow_spec (palette : Nat → Nat) (W H pad : Nat) (mem0 : Int → Nat)
    (hW : 1 ≤ W) (hpad : pad ≤ 3) (r : Nat) (hr : r < H) :
    ∀ (n : Nat) (s : ExpandState), n ≤ W →
      s.pixel = ((r * W + n : Nat) : Int) - 1 →
      s.byte = ((r * (W + pad) + n : Nat) : Int) - 1 →
      ExpandInv palette W H pad mem0 s.mem (r * W + n) →
      (expandRow palette n s).pixel = ((r * W : Nat) : Int) - 1 ∧
      (expandRow palette n s).byte = ((r * (W + pad) : Nat) : Int) - 1 ∧
      ExpandInv palette W H pad mem0 (expandRow palette n s).mem (r * W) := by
  intro n
  induction n with
  | zero =>
    intro s _ hp hb hinv
    exact ⟨hp, hb, hinv⟩
  | succ n ih =>
    intro s hn hp hb hinv
    unfold expandRow
    have hp2 : s.pixel = ((r * W + n : Nat) : Int) := by rw [hp]; omega
    have hb2 : s.byte = ((r * (W + pad) + n : Nat) : Int) := by rw [hb]; omega
    refine ih _ (by omega) ?_ ?_ ?_
    · show s.pixel - 1 = _
      rw [hp2]
    · show s.byte - 1 = _
      rw [hb2]
    · show ExpandInv palette W H pad mem0
        (storeDword s.mem s.pixel (rgb_to_bgr (palette (s.mem s.byte)))) (r * W + n)
      rw [hp2, hb2]
      exact expand_step palette W H pad mem0 s.mem r n hW hpad hr (by omega) hinv

/-- The outer loop over the first `n` rows. -/
theorem expandRows_spec (palette : Nat → Nat) (W H pad : Nat) (mem0 : Int → Nat)
    (hW : 1 ≤ W) (hpad : pad ≤ 3) :
    ∀ (n : Nat) (s : ExpandState), n ≤ H →
      s.pixel = ((n * W : Nat) : Int) - 1 →
      s.byte = ((n * (W + pad) : Nat) : Int) - 1 →
      ExpandInv palette W H pad mem0 s.mem (n * W) →
      ExpandInv palette W H pad mem0 (expandRows palette W pad n s).mem 0 := by
  intro n
  induction n with
  | zero =>
    intro s _ _ _ hinv
    simpa using hinv
  | succ n ih =>
    intro s hn hp hb hinv
    unfold expandRows
    have hmulW : (n + 1) * W = n * W + W := by rw [Nat.add_mul, Nat.one_mul]
    have hmulS : (n + 1) * (W + pad) = n * (W + pad) + W + pad := by
      rw [Nat.add_mul, Nat.one_mul]; omega
    obtain ⟨q1, q2, q3⟩ := expandRow_spec palette W H pad mem0 hW hpad n (by omega) W
      { s with byte := s.byte - (pad : Int) } (Nat.le_refl W)
      (by show s.pixel = _; rw [hp, hmulW])
      (by show s.byte - (pad : Int) = _; rw [hb, hmulS]; omega)
      (by show ExpandInv palette W H pad mem0 s.mem (n * W + W); rw [← hmulW]; exact hinv)
    exact ih _ (by omega) q1 q2 q3
theorem emptyBytesAtEndOfEachRow_le (W : Nat) : emptyBytesAtEndOfEachRow W ≤ 3 := by
  unfold emptyBytesAtEndOfEachRow
  split <;> omega

/-- The buffer after the conversion holds, in every slot, the colour of its pixel. -/
theorem expandPalette_spec (palette : Nat → Nat) (W H : Nat) (mem : Int → Nat) (hW : 1 ≤ W)
    (r c : Nat) (hr : r < H) (hc : c < W) :
    loadDword (expandPalette palette W H mem) ((r * W + c : Nat) : Int)
      = rgb_to_bgr (palette (mem ((r * (W + emptyBytesAtEndOfEachRow W) + c : Nat) : Int))) := by
  have hpad := emptyBytesAtEndOfEachRow_le W
  have hinit : ExpandInv palette W H (emptyBytesAtEndOfEachRow W) mem mem (H * W) := by
    refine ⟨fun a _ => rfl, fun r2 c2 hr2 hc2 hq => ?_⟩
    have : (r2 + 1) * W ≤ H * W := Nat.mul_le_mul_right W hr2
    rw [Nat.add_mul, Nat.one_mul] at this
    omega
  have hfinal := expandRows_spec palette W H (emptyBytesAtEndOfEachRow W) mem hW hpad H
    { mem := mem
      byte := ((W * H : Nat) : Int) - 1 + ((H * emptyBytesAtEndOfEachRow W : Nat) : Int)
      pixel := ((W * H : Nat) : Int) - 1 }
    (Nat.le_refl H)
    (by show ((W * H : Nat) : Int) - 1 = _; rw [Nat.mul_comm])
    (by
      show ((W * H : Nat) : Int) - 1 + ((H * emptyBytesAtEndOfEachRow W : Nat) : Int) = _
      rw [Nat.mul_add, Nat.mul_comm W H]
      omega)
    hinit
  exact hfinal.2 r c hr hc (Nat.zero_le _)

/-- C21 (in-place palette expansion). For an 8-bit image of width `W ≥ 1` and
height `H ≥ 1` whose index bytes lie in rows of `W + pad` bytes at the start
of the pixel buffer, with `pad = (4 - W % 4) % 4`: the index byte of pixel
`(r, c)` lies below the slot `r * W + c + 1`, hence below every slot written
before that byte is read, and the reverse-order loop of `getbits` ends with
`pixel[r * W + c] = rgb_to_bgr(palette[index byte at r * (W + pad) + c])`
for all `r < H`, `c < W`, for every palette and every content of the
buffer: the result of a one-pass conversion into a new buffer. -/
theorem palette_expansion_in_place (palette : Nat → Nat) (W H : Nat) (mem : Int → Nat)
    (hW : 1 ≤ W) (_hH : 1 ≤ H) :
    emptyBytesAtEndOfEachRow W = (4 - W % 4) % 4 ∧
    (∀ r c, r < H → c < W →
      r * (W + emptyBytesAtEndOfEachRow W) + c < 4 * (r * W + c + 1) ∧
      loadDword (expandPalette palette W H mem) ((r * W + c : Nat) : Int)
        = rgb_to_bgr (palette (mem ((r * (W + emptyBytesAtEndOfEachRow W) + c : Nat) : Int)))) ∧
    (List.range (W * H)).map (fun (p : Nat) => loadDword (expandPalette palette W H mem) (p : Int))
      = expandFresh palette W H (emptyBytesAtEndOfEachRow W) mem := by
  refine ⟨?_, fun r c hr hc => ⟨?_, expandPalette_spec palette W H mem hW r c hr hc⟩, ?_⟩
  · unfold emptyBytesAtEndOfEachRow
    split <;> omega
  · exact index_byte_below_slot W _ r c hW (emptyBytesAtEndOfEachRow_le W)
  · unfold expandFresh
    apply List.map_congr_left
    intro p hp
    have hp' : p < W * H := List.mem_range.mp hp
    have hdm : p / W * W + p % W = p := by
      rw [Nat.mul_comm]; exact Nat.div_add_mod p W
    have := expandPalette_spec palette W H mem hW (p / W) (p % W)
      (Nat.div_lt_of_lt_mul hp') (Nat.mod_lt p (by omega))
    rw [hdm] at this
    exact this

/-- Witness of C21: a 3x2 image in rows of 4 bytes; slot 5 (row 1, column 2)
ends with the converted palette entry of the byte at offset 6. -/
theorem palette_expansion_in_place_witness :
    (1 ≤ 3 ∧ 1 ≤ 2) ∧ emptyBytesAtEndOfEachRow 3 = 1 ∧
    loadDword (expandPalette samplePalette 3 2 sampleIndexed) 5 = 0x060C12 ∧
    rgb_to_bgr (samplePalette (sampleIndexed 6)) = 0x060C12 :=
  ⟨⟨by decide, by decide⟩, by decide,
    (((palette_expansion_in_place samplePalette 3 2 sampleIndexed (by decide) (by decide)).2.1
      1 2 (by decide) (by decide)).2).trans (by decide),
    by decide⟩

/-! ## Transparency -/

/-- The test `image_mask && image_mask[j]` holds exactly when the mask marks `j`. -/
theorem maskSet_iff (image_mask : Option (List Nat)) (j : Nat) :
    maskSet image_mask j = true ↔ MaskEntrySet image_mask j := by
  unfold maskSet MaskEntrySet
  cases image_mask with
  | none =>
    constructor
    · intro h; cases h
    · rintro ⟨m, hm, _⟩; cases hm
  | some m =>
    constructor
    · intro h
      exact ⟨m, rfl, by simpa using h⟩
    · rintro ⟨m2, hm, hne⟩
      cases hm
      simpa using hne

/-- Two per-pixel tests that agree on the pairs compared at candidate `i` give
the same full comparison there. -/
theorem matchLoop_congr_at (ok1 ok2 : Nat → Nat → Bool) (tw th sw i : Nat) (htw : 0 < tw)
    (hagree : ∀ r, r < th → ∀ c, c < tw →
      ok1 (r * tw + c) (i + r * sw + c) = ok2 (r * tw + c) (i + r * sw + c)) :
    matchLoop ok1 tw sw i (tw * th) 0 0 0 i = matchLoop ok2 tw sw i (tw * th) 0 0 0 i := by
  rw [Bool.eq_iff_iff, matchLoop_start _ _ _ _ _ htw, matchLoop_start _ _ _ _ _ htw]
  constructor
  · intro h r hr c hc
    rw [← hagree r hr c hc]; exact h r hr c hc
  · intro h r hr c hc
    rw [hagree r hr c hc]; exact h r hr c hc

/-- C7 (transparency absorption). In the exact mode and in the variation mode
alike, a template pixel whose mask entry is set, or whose value equals the
transparent colour, matches every surface pixel value, whatever its colour:
both per-pixel tests succeed against every surface buffer and index.  So
the outcome of the comparison at a candidate `i` does not depend on the
surface pixels that lie under transparent template pixels, and a template
with at least one pixel, all of whose normalised pixels are transparent and
whose dimensions do not exceed the surface's, is found at index 0. -/
theorem transparency_absorbs (img : List Nat) (image_mask : Option (List Nat)) (tc : Nat) :
    (∀ j, MaskEntrySet image_mask j → ∀ (scr : List Nat) (k v : Nat),
      exactPixel img scr image_mask tc j k = true ∧
        variationPixel img scr image_mask tc v j k = true) ∧
    (∀ j, img.getD j 0 = tc → ∀ (scr : List Nat) (k v : Nat),
      exactPixel img scr image_mask tc j k = true ∧
        variationPixel img scr image_mask tc v j k = true) ∧
    (∀ (scr1 scr2 : List Nat) (tw th sw sh i v : Nat), 0 < tw → 0 < th →
      (∀ r, r < th → ∀ c, c < tw →
        MaskEntrySet image_mask (r * tw + c) ∨ img.getD (r * tw + c) 0 = tc ∨
          scr1.getD (i + r * sw + c) 0 = scr2.getD (i + r * sw + c) 0) →
      exactCandidate img scr1 image_mask tc tw th sw sh i
          = exactCandidate img scr2 image_mask tc tw th sw sh i ∧
        variationCandidate img scr1 image_mask tc v tw th sw sh i
          = variationCandidate img scr2 image_mask tc v tw th sw sh i) ∧
    (∀ inp : SearchInput, inp.image_mask = image_mask → normImage inp = img →
      normTransColor inp = tc → 0 < inp.image_width → 0 < inp.image_height →
      inp.image_width ≤ inp.screen_width → inp.image_height ≤ inp.screen_height →
      (∀ j, j < inp.image_width * inp.image_height →
        MaskEntrySet image_mask j ∨ img.getD j 0 = tc) →
      search inp = some 0) := by
  have hmask : ∀ j, MaskEntrySet image_mask j → ∀ (scr : List Nat) (k v : Nat),
      exactPixel img scr image_mask tc j k = true ∧
        variationPixel img scr image_mask tc v j k = true := by
    intro j hj scr k v
    have hm := (maskSet_iff image_mask j).mpr hj
    rw [exactPixel_iff, variationPixel_iff]
    exact ⟨Or.inl (Or.inl hm), Or.inl (Or.inl hm)⟩
  have hcol : ∀ j, img.getD j 0 = tc → ∀ (scr : List Nat) (k v : Nat),
      exactPixel img scr image_mask tc j k = true ∧
        variationPixel img scr image_mask tc v j k = true := by
    intro j hj scr k v
    rw [exactPixel_iff, variationPixel_iff]
    exact ⟨Or.inl (Or.inr hj), Or.inl (Or.inr hj)⟩
  refine ⟨hmask, hcol, ?_, ?_⟩
  · intro scr1 scr2 tw th sw sh i v htw hth hfree
    have hex : ∀ r, r < th → ∀ c, c < tw →
        exactPixel img scr1 image_mask tc (r * tw + c) (i + r * sw + c)
          = exactPixel img scr2 image_mask tc (r * tw + c) (i + r * sw + c) := by
      intro r hr c hc
      rcases hfree r hr c hc with h | h | h
      · rw [(hmask _ h scr1 _ 0).1, (hmask _ h scr2 _ 0).1]
      · rw [(hcol _ h scr1 _ 0).1, (hcol _ h scr2 _ 0).1]
      · unfold exactPixel
        rw [h]
    have hvar : ∀ r, r < th → ∀ c, c < tw →
        variationPixel img scr1 image_mask tc v (r * tw + c) (i + r * sw + c)
          = variationPixel img scr2 image_mask tc v (r * tw + c) (i + r * sw + c) := by
      intro r hr c hc
      rcases hfree r hr c hc with h | h | h
      · rw [(hmask _ h scr1 _ v).2, (hmask _ h scr2 _ v).2]
      · rw [(hcol _ h scr1 _ v).2, (hcol _ h scr2 _ v).2]
      · unfold variationPixel
        rw [h]
    constructor
    · unfold exactCandidate
      rw [first_step_redundant _ _ _ _ _ _ (Nat.mul_pos htw hth),
        first_step_redundant _ _ _ _ _ _ (Nat.mul_pos htw hth),
        matchLoop_congr_at _ _ tw th sw i htw hex]
    · unfold variationCandidate
      rw [matchLoop_congr_at _ _ tw th sw i htw hvar]
  · intro inp hm himg htc htw hth hw hh hall
    rw [search_eq_some_iff inp 0 htw hth]
    refine ⟨Nat.mul_pos (by omega) (by omega), ?_, fun r hr c hc => Or.inl ?_,
      fun t ht => absurd ht (Nat.not_lt_zero t)⟩
    · unfold Fits
      simp only [Nat.zero_div, Nat.zero_mod, Nat.sub_zero]
      exact ⟨hh, hw⟩
    · have hj : r * inp.image_width + c < inp.image_width * inp.image_height := by
        calc r * inp.image_width + c < r * inp.image_width + inp.image_width := by omega
          _ = inp.image_width * (r + 1) := by rw [Nat.mul_add, Nat.mul_one, Nat.mul_comm]
          _ ≤ inp.image_width * inp.image_height := Nat.mul_le_mul_left _ hr
      unfold Transparent
      rw [hm, himg, htc]
      rcases hall _ hj with h | h
      · exact Or.inl ((maskSet_iff image_mask _).mpr h)
      · exact Or.inr h

/-- Witness of C7: the mask of `sampleMasked` marks the first template pixel,
whose colour `0x999999` is nowhere in the surface.  The pixel passes both
tests against a surface pixel `0x00FF00`, and the template is found at
index 6 in both modes, while without the mask it is found in neither. -/
theorem transparency_absorbs_witness :
    MaskEntrySet sampleMasked.image_mask 0 ∧
    (exactPixel sampleMasked.image_pixel [0x00FF00] sampleMasked.image_mask CLR_NONE 0 0 = true ∧
      variationPixel sampleMasked.image_pixel [0x00FF00] sampleMasked.image_mask CLR_NONE 1 0 0
        = true) ∧
    (search sampleMasked = some 6 ∧ search { sampleMasked with aVariation := 1 } = some 6) ∧
    (search { sampleMasked with image_mask := none } = none ∧
      search { sampleMasked with image_mask := none, aVariation := 1 } = none) :=
  ⟨by decide,
    (transparency_absorbs sampleMasked.image_pixel sampleMasked.image_mask CLR_NONE).1 0
      (by decide) [0x00FF00] 0 1,
    ⟨by decide, by decide⟩, ⟨by decide, by decide⟩⟩

/-! ## Zero-area buffers -/

end ImageSearch
